import Mathlib

/-!
Verification of the DALI bus-master driver (DALIDriver.cpp / DALIDriver.h).

The driver talks to a half-duplex lighting bus through a Manchester
transceiver exposing `send`, `send_24` and `recv`.  We shallowly embed the
driver's pure computations (frame encoding, response classification) as Lean
functions on `Nat`/`Int`, with `% 256` wherever the C code truncates to
`uint8_t`, and embed the stateful discovery algorithm
(`assign_addresses`, `get_highest_address`, `assign_addresses_input`) as
fuel-indexed recursive functions over an explicit simulated bus population.

The simulated population follows the protocol model stated in the spec:
every device holds a fixed 24-bit random address (the model takes the
post-RANDOMISE value as an input), answers COMPARE with YES iff its random
address is numerically ≤ the broadcast search address, can be withdrawn
(stops answering COMPARE for the rest of the session), answers
QUERY_SHORT_ADDR with `(short <<< 1) + 1` (or the MASK byte 0xFF when it has
no short address), and stores the address bits of a PROGRAM_SHORT_ADDR
payload.  INITIALISE with payload 0x00 enrols every device in the session,
INITIALISE with payload 0xFF enrols only devices without a short address;
session membership is decided when the session starts and re-sent
(refresh) INITIALISE frames do not un-withdraw a device.

Every bus frame the driver emits is recorded in a trace of `BusEvent`s so
that theorems can speak about what was actually sent on the wire.
-/

namespace DALI

/-- Special command address bytes (`SpecialCommandOpAddr` in DALIDriver.h). -/
def SEARCHADDRH : Nat := 0xB1

def SEARCHADDRM : Nat := 0xB3

def SEARCHADDRL : Nat := 0xB5

def INITIALISE : Nat := 0xA5

def RANDOMISE : Nat := 0xA7

def PROGRAM_SHORT_ADDR : Nat := 0xB7

def QUERY_SHORT_ADDR : Nat := 0xBB

def COMPARE : Nat := 0xA9

def TERMINATE : Nat := 0xA1

def WITHDRAW : Nat := 0xAB

/-- `#define YES 0xFF` in DALIDriver.h: the affirmative reply sentinel. -/
def YES : Nat := 0xFF

/-- Opcode byte of `QUERY_ACTUAL_LEVEL` (CommandOpCodes). -/
def QUERY_ACTUAL_LEVEL : Nat := 0xA0

/-- Opcode byte of `QUERY_FADE` (CommandOpCodes). -/
def QUERY_FADE : Nat := 0xA5

/-- Address byte built by `send_command_standard`:
`mask = address & 0x80; address = mask | ((address << 1) + 1)`,
with the assignment back into `uint8_t` truncating mod 256. -/
def standardAddrByte (address : Nat) : Nat :=
  ((address &&& 0x80) ||| ((address <<< 1) + 1)) % 256

/-- Address byte built by `send_command_direct`:
`mask = address & 0x80; address = mask | (address << 1)`,
with the assignment back into `uint8_t` truncating mod 256. -/
def directAddrByte (address : Nat) : Nat :=
  ((address &&& 0x80) ||| (address <<< 1)) % 256

/-- 16-bit frame sent by `send_command_special`:
`encoder.send(((uint16_t)address << 8) | opcode)`. -/
def specialWord (address opcode : Nat) : Nat :=
  (address <<< 8) ||| opcode

/-- 16-bit frame sent by `send_command_standard`. -/
def standardWord (address opcode : Nat) : Nat :=
  specialWord (standardAddrByte address) opcode

/-- 16-bit frame sent by `send_command_direct`. -/
def directWord (address opcode : Nat) : Nat :=
  specialWord (directAddrByte address) opcode

/-- 24-bit frame sent by `send_command_special_input`:
`encoder.send_24(((uint32_t)0xC1 << 16) | ((uint16_t)instance << 8) | opcode)`. -/
def specialInputWord (inst opcode : Nat) : Nat :=
  ((0xC1 <<< 16) ||| (inst <<< 8)) ||| opcode

/-- `get_group_addr`: `mask = 1 << 7; return mask | group_number`. -/
def get_group_addr (group_number : Nat) : Nat :=
  (1 <<< 7) ||| group_number

/-- `check_response(expected)`: reads one value from the transceiver
(the `response` argument of the model); a negative value (timeout /
no response) yields `false`, otherwise the value is compared with
`expected`. -/
def check_response (expected : Nat) (response : Int) : Bool :=
  if response < 0 then false else response == (expected : Int)

/-- `get_level`: sends QUERY_ACTUAL_LEVEL and returns
`uint8_t resp = encoder.recv();` — the received `int` truncated to
`uint8_t`, i.e. reduced mod 256 (so a negative timeout value is
truncated, not reported). -/
def get_level (resp : Int) : Nat :=
  (resp % 256).toNat

/-- `get_fade`: sends QUERY_FADE and returns the received `int`
truncated to `uint8_t`, exactly like `get_level`. -/
def get_fade (resp : Int) : Nat :=
  (resp % 256).toNat

/-! ### The simulated bus population used by the discovery engine -/

/-- One bus event emitted by the driver: a 16-bit frame (`encoder.send`),
a 24-bit frame (`encoder.send_24`) or a delay (`wait_ms`). -/
inductive BusEvent where
  | send : Nat → BusEvent
  | send24 : Nat → BusEvent
  | waitMs : Nat → BusEvent
deriving DecidableEq, Repr

/-- A simulated device on the bus: its (post-RANDOMISE) 24-bit random
address, its current short address if any, whether it is enrolled in the
running initialisation session, and whether it has withdrawn. -/
structure Device where
  randomAddr : Nat
  shortAddr : Option Nat
  inSession : Bool
  withdrawn : Bool
deriving DecidableEq, Repr

/-- A device answers bus queries while it is enrolled in the session and
has not withdrawn. -/
def responsive (d : Device) : Bool :=
  d.inSession && !d.withdrawn

/-- Effect of starting an initialisation session with the given INITIALISE
payload: payload 0x00 enrols every device, payload 0xFF enrols only
devices without a short address; withdrawn state is cleared for the new
session. -/
def sessionStart (payload : Nat) (devs : List Device) : List Device :=
  devs.map fun d =>
    { d with inSession := payload == 0x00 || d.shortAddr.isNone, withdrawn := false }

/-- COMPARE semantics: some responsive device's random address is
numerically ≤ the current search address. -/
def compareYes (devs : List Device) (searchAddr : Nat) : Bool :=
  devs.any fun d => responsive d && d.randomAddr ≤ searchAddr

/-- WITHDRAW: every responsive device whose random address equals the
search address stops answering for the rest of the session. -/
def withdrawAt (searchAddr : Nat) (devs : List Device) : List Device :=
  devs.map fun d =>
    if responsive d && d.randomAddr == searchAddr then { d with withdrawn := true } else d

/-- PROGRAM_SHORT_ADDR with data byte `val`: every responsive device whose
random address equals the search address stores the address bits
(bits 6..1) of the payload. -/
def programAt (searchAddr val : Nat) (devs : List Device) : List Device :=
  devs.map fun d =>
    if responsive d && d.randomAddr == searchAddr then
      { d with shortAddr := some ((val >>> 1) &&& 0x3F) }
    else d

/-- QUERY_SHORT_ADDR: the selected device (responsive, random address
equal to the search address) answers `(short <<< 1) + 1`, or the MASK
byte 0xFF when it has no short address.  When no device is selected the
transceiver times out with -1, which the C code truncates into `uint8_t`
as 0xFF as well. -/
def queryShortAddr (searchAddr : Nat) (devs : List Device) : Nat :=
  match devs.find? (fun d => responsive d && d.randomAddr == searchAddr) with
  | some d =>
    match d.shortAddr with
    | some s => (s <<< 1) + 1
    | none => 0xFF
  | none => 0xFF

/-- Random addresses of the devices that still answer COMPARE. -/
def activeAddrs (devs : List Device) : List Nat :=
  (devs.filter responsive).map Device.randomAddr

/-! ### Driver: search address broadcast and the 24-bit binary search -/

/-- `set_search_address(val)`: three SEARCHADDRH/M/L special frames; the
high byte passes through the `uint8_t` parameter (mod 256), the other two
are masked with 0xFF in the C source. -/
def set_search_address (val : Nat) : List BusEvent :=
  [BusEvent.send (specialWord SEARCHADDRH ((val >>> 16) % 256)),
   BusEvent.send (specialWord SEARCHADDRM ((val >>> 8) &&& 0xFF)),
   BusEvent.send (specialWord SEARCHADDRL (val &&& 0xFF))]

/-- `set_search_address_input(val)`: the 24-bit-frame variant used for
input devices (instances 0x05/0x06/0x07). -/
def set_search_address_input (val : Nat) : List BusEvent :=
  [BusEvent.send24 (specialInputWord 0x05 ((val >>> 16) % 256)),
   BusEvent.send24 (specialInputWord 0x06 ((val >>> 8) &&& 0xFF)),
   BusEvent.send24 (specialInputWord 0x07 (val &&& 0xFF))]

/-- All-ones 32-bit constant: `~mask` on a `uint32_t` is `0xFFFFFFFF ^ mask`. -/
def UINT32_MASK : Nat := 0xFFFFFFFF

/-- The binary-search inner loop of the discovery functions
(`for(int i = 23; i >= 0; i--)`), called with fuel 24 and search address
0xFFFFFF.  Fuel `i + 1` processes bit `i`: clear the bit
(`searchAddr & ~mask` on `uint32_t`), broadcast the candidate and COMPARE,
and restore the bit when no device answers YES.  Returns the final search
address together with the emitted trace. -/
def searchIter (devs : List Device) : Nat → Nat → Nat × List BusEvent
  | 0, s => (s, [])
  | i + 1, s =>
    let mask := 1 <<< i
    let cleared := s &&& (UINT32_MASK ^^^ mask)
    let yes := compareYes devs cleared
    let s' := if yes then cleared else cleared ||| mask
    let rest := searchIter devs i s'
    (rest.1,
      (set_search_address cleared ++ [BusEvent.send (specialWord COMPARE 0x00)]) ++ rest.2)

/-- Input-device variant of `searchIter` (COMPARE is the 24-bit frame with
instance 0x03). -/
def searchIterInput (devs : List Device) : Nat → Nat → Nat × List BusEvent
  | 0, s => (s, [])
  | i + 1, s =>
    let mask := 1 <<< i
    let cleared := s &&& (UINT32_MASK ^^^ mask)
    let yes := compareYes devs cleared
    let s' := if yes then cleared else cleared ||| mask
    let rest := searchIterInput devs i s'
    (rest.1,
      (set_search_address_input cleared ++ [BusEvent.send24 (specialInputWord 0x03 0x00)]) ++ rest.2)

/-! ### The discovery loops -/

/-- State threaded through the outer discovery loops: the simulated
devices, `numAssignedShortAddresses`, the `assignedAddresses[63]`
bookkeeping array and the trace of emitted bus events.
(The C locals `searchCompleted` and `highestAssigned` of
`assign_addresses` are never read and are omitted.) -/
structure AAState where
  devs : List Device
  numAssigned : Nat
  assigned : List Bool
  trace : List BusEvent
deriving Repr

/-- The "Refresh initialization state" pair of INITIALISE frames sent at
the bottom of each outer loop iteration of `assign_addresses` and
`get_highest_address` (payload 0x00; a refresh does not change the
simulated session state). -/
def initRefresh : List BusEvent :=
  [BusEvent.send (specialWord INITIALISE 0x00), BusEvent.send (specialWord INITIALISE 0x00)]

/-- The `while(true)` loop of `assign_addresses` (fuel-indexed;
`none` means the fuel ran out before the loop exited).  Each iteration:
broadcast search address 0xFFFFFF and COMPARE; exit when no device
answers; otherwise, when fewer than 63 short addresses are assigned, run
the 24-bit binary search, confirm with COMPARE, and if confirmed program
`numAssigned` as the device's short address (encoded `(n << 1) + 1`),
withdraw it and update the bookkeeping — unless the address is already
marked used (the silent duplicate branch).  Finally refresh INITIALISE
and iterate. -/
def assignLoop : Nat → AAState → Option AAState
  | 0, _ => none
  | fuel + 1, st =>
    let trTop := set_search_address 0xFFFFFF ++ [BusEvent.send (specialWord COMPARE 0x00)]
    if compareYes st.devs 0xFFFFFF then
      let st1 :=
        if st.numAssigned < 63 then
          let r := searchIter st.devs 24 0xFFFFFF
          let trConfirm := set_search_address r.1 ++ [BusEvent.send (specialWord COMPARE 0x00)]
          if compareYes st.devs r.1 then
            let new_addr := st.numAssigned
            if new_addr < 63 then
              if st.assigned.getD new_addr false then
                { st with trace := st.trace ++ trTop ++ r.2 ++ trConfirm }
              else
                { devs := withdrawAt r.1 (programAt r.1 ((new_addr <<< 1) + 1) st.devs),
                  numAssigned := st.numAssigned + 1,
                  assigned := st.assigned.set new_addr true,
                  trace := st.trace ++ trTop ++ r.2 ++ trConfirm ++
                    [BusEvent.send (specialWord PROGRAM_SHORT_ADDR ((new_addr <<< 1) + 1)),
                     BusEvent.send (specialWord WITHDRAW 0x00)] }
            else
              { st with trace := st.trace ++ trTop ++ r.2 ++ trConfirm }
          else
            { st with trace := st.trace ++ trTop ++ r.2 ++ trConfirm }
        else
          { st with trace := st.trace ++ trTop }
      assignLoop fuel { st1 with trace := st1.trace ++ initRefresh }
    else
      some { st with trace := st.trace ++ trTop }

/-- State of the `get_highest_address` loop: devices, the running
`highestAssigned` (an `int`, -1 when nothing found yet) and the trace. -/
structure GHState where
  devs : List Device
  highest : Int
  trace : List BusEvent
deriving Repr

/-- The `while(true)` loop of `get_highest_address`: like `assignLoop`
but without the 63 cap; on finding a device it reads its current short
address (`uint8_t short_addr = encoder.recv()`), and when the reply is
not the MASK byte 0xFF decodes it as `short_addr >> 1` and keeps the
maximum; the device is then told to withdraw. -/
def ghLoop : Nat → GHState → Option GHState
  | 0, _ => none
  | fuel + 1, st =>
    let trTop := set_search_address 0xFFFFFF ++ [BusEvent.send (specialWord COMPARE 0x00)]
    if compareYes st.devs 0xFFFFFF then
      let r := searchIter st.devs 24 0xFFFFFF
      let trConfirm := set_search_address r.1 ++ [BusEvent.send (specialWord COMPARE 0x00)]
      let st1 :=
        if compareYes st.devs r.1 then
          let sa := queryShortAddr r.1 st.devs
          let highest' :=
            if sa ≠ 0xFF then
              if ((sa >>> 1 : Nat) : Int) > st.highest then ((sa >>> 1 : Nat) : Int)
              else st.highest
            else st.highest
          { devs := withdrawAt r.1 st.devs,
            highest := highest',
            trace := st.trace ++ trTop ++ r.2 ++ trConfirm ++
              [BusEvent.send (specialWord QUERY_SHORT_ADDR 0x00),
               BusEvent.send (specialWord WITHDRAW 0x00)] }
        else
          { st with trace := st.trace ++ trTop ++ r.2 ++ trConfirm }
      ghLoop fuel { st1 with trace := st1.trace ++ initRefresh }
    else
      some { st with trace := st.trace ++ trTop }

/-- `get_highest_address()`: a full-reset session (INITIALISE 0x00 twice,
RANDOMISE twice, 100 ms settle), the query/withdraw loop, then TERMINATE;
returns `highestAssigned` (-1 when no device reported a short address)
together with the final devices and the trace. -/
def get_highest_address (fuel : Nat) (devs : List Device) : Option (Int × List Device × List BusEvent) :=
  let devs0 := sessionStart 0x00 devs
  let tr0 := [BusEvent.send (specialWord INITIALISE 0x00), BusEvent.send (specialWord INITIALISE 0x00),
              BusEvent.send (specialWord RANDOMISE 0x00), BusEvent.send (specialWord RANDOMISE 0x00),
              BusEvent.waitMs 100]
  match ghLoop fuel { devs := devs0, highest := -1, trace := tr0 } with
  | none => none
  | some st => some (st.highest, st.devs, st.trace ++ [BusEvent.send (specialWord TERMINATE 0x00)])

/-- The `for (int i = 0; i < numAssignedShortAddresses; i++)
assignedAddresses[i] = true;` marking loop of `assign_addresses`, run on
the zero-initialised 63-entry array. -/
def mark_assigned (n : Nat) : List Bool :=
  (List.range n).foldl (fun arr i => arr.set i true) (List.replicate 63 false)

/-- `assign_addresses(reset)`: when `reset` is false, first run
`get_highest_address` and seed `numAssignedShortAddresses` and the
bookkeeping array from its result; then start the session (INITIALISE
twice with payload 0x00 on a full reset and 0xFF otherwise, RANDOMISE
twice, 100 ms settle), run the outer loop, and TERMINATE.  Returns the
final loop state; its `numAssigned` field is the function's return
value. -/
def assign_addresses (reset : Bool) (fuel : Nat) (devs : List Device) : Option AAState :=
  match (if reset then some ((-1 : Int), devs, ([] : List BusEvent))
         else get_highest_address fuel devs) with
  | none => none
  | some (h, devs1, trPre) =>
    let numAssigned := if h ≥ 0 then h.toNat + 1 else 0
    let assigned := if h ≥ 0 then mark_assigned (h.toNat + 1) else List.replicate 63 false
    let opcode := if reset then 0x00 else 0xFF
    let devs2 := sessionStart opcode devs1
    let trSetup := [BusEvent.send (specialWord INITIALISE opcode), BusEvent.send (specialWord INITIALISE opcode),
                    BusEvent.send (specialWord RANDOMISE 0x00), BusEvent.send (specialWord RANDOMISE 0x00),
                    BusEvent.waitMs 100]
    match assignLoop fuel { devs := devs2, numAssigned := numAssigned,
                            assigned := assigned, trace := trPre ++ trSetup } with
    | none => none
    | some st => some { st with trace := st.trace ++ [BusEvent.send (specialWord TERMINATE 0x00)] }

/-- Input-device refresh INITIALISE pair (instance 0x01, payload 0x00). -/
def initRefreshInput : List BusEvent :=
  [BusEvent.send24 (specialInputWord 0x01 0x00), BusEvent.send24 (specialInputWord 0x01 0x00)]

/-- The `while(true)` loop of `assign_addresses_input`: identical control
flow to `assignLoop` with the 24-bit input-device frames (COMPARE is
instance 0x03, PROGRAM_SHORT_ADDR instance 0x08, WITHDRAW instance
0x04). -/
def assignInputLoop : Nat → AAState → Option AAState
  | 0, _ => none
  | fuel + 1, st =>
    let trTop := set_search_address_input 0xFFFFFF ++ [BusEvent.send24 (specialInputWord 0x03 0x00)]
    if compareYes st.devs 0xFFFFFF then
      let st1 :=
        if st.numAssigned < 63 then
          let r := searchIterInput st.devs 24 0xFFFFFF
          let trConfirm := set_search_address_input r.1 ++ [BusEvent.send24 (specialInputWord 0x03 0x00)]
          if compareYes st.devs r.1 then
            let new_addr := st.numAssigned
            if new_addr < 63 then
              if st.assigned.getD new_addr false then
                { st with trace := st.trace ++ trTop ++ r.2 ++ trConfirm }
              else
                { devs := withdrawAt r.1 (programAt r.1 ((new_addr <<< 1) + 1) st.devs),
                  numAssigned := st.numAssigned + 1,
                  assigned := st.assigned.set new_addr true,
                  trace := st.trace ++ trTop ++ r.2 ++ trConfirm ++
                    [BusEvent.send24 (specialInputWord 0x08 ((new_addr <<< 1) + 1)),
                     BusEvent.send24 (specialInputWord 0x04 0x00)] }
            else
              { st with trace := st.trace ++ trTop ++ r.2 ++ trConfirm }
          else
            { st with trace := st.trace ++ trTop ++ r.2 ++ trConfirm }
        else
          { st with trace := st.trace ++ trTop }
      assignInputLoop fuel { st1 with trace := st1.trace ++ initRefreshInput }
    else
      some { st with trace := st.trace ++ trTop }

/-- `assign_addresses_input(reset, num_found)`: the C source computes
`opcode = reset ? 0x00 : 0xFF` but then sends the INITIALISE frames with
the literal payload 0xFF regardless (the computed `opcode` is unused), so
the session always enrols only unaddressed devices.  The counter
`numAssignedShortAddresses` is a `uint8_t` initialised from the `int`
argument `num_found` (mod 256) and is the return value. -/
def assign_addresses_input (reset : Bool) (num_found : Nat) (fuel : Nat) (devs : List Device) : Option AAState :=
  let _opcode := if reset then 0x00 else 0xFF
  let devs2 := sessionStart 0xFF devs
  let trSetup := [BusEvent.send24 (specialInputWord 0x01 0xFF), BusEvent.send24 (specialInputWord 0x01 0xFF),
                  BusEvent.send24 (specialInputWord 0x02 0x00), BusEvent.send24 (specialInputWord 0x02 0x00),
                  BusEvent.waitMs 100]
  match assignInputLoop fuel { devs := devs2, numAssigned := num_found % 256,
                               assigned := List.replicate 63 false, trace := trSetup } with
  | none => none
  | some st => some { st with trace := st.trace ++ [BusEvent.send24 (specialInputWord 0x00 0x00)] }

/-- `init()`: `num_logical_units = assign_addresses();
num_logical_units += assign_addresses_input(true, num_logical_units);
return num_logical_units;` — note that `assign_addresses` is called with
its default argument `reset = false`.  The model takes the lighting and
input populations separately and also returns both final pass states. -/
def driverInit (fuel : Nat) (lights inputs : List Device) : Option (Nat × AAState × AAState) :=
  match assign_addresses false fuel lights with
  | none => none
  | some stL =>
    match assign_addresses_input true stL.numAssigned fuel inputs with
    | none => none
    | some stI => some (stL.numAssigned + stI.numAssigned, stL, stI)

/-! ### Trace observations -/

/-- Number of 16-bit frames in the trace equal to the given word. -/
def sendCount (w : Nat) (tr : List BusEvent) : Nat :=
  tr.count (BusEvent.send w)

/-- The PROGRAM_SHORT_ADDR frames of a trace, in order (16-bit frames
whose address byte is 0xB7). -/
def programWords (tr : List BusEvent) : List Nat :=
  tr.filterMap fun e =>
    match e with
    | BusEvent.send w => if w >>> 8 == PROGRAM_SHORT_ADDR then some w else none
    | _ => none

/-! ### Concrete populations used to instantiate the theorems -/

/-- Three unaddressed devices with distinct random addresses. -/
def wdevs3 : List Device :=
  [⟨5, none, false, false⟩, ⟨2, none, false, false⟩, ⟨7, none, false, false⟩]

/-- Sixty-four unaddressed devices with distinct random addresses. -/
def wdevs64 : List Device :=
  (List.range 64).map fun i => ⟨i, none, false, false⟩

/-- One device already holding short address 0 plus one unaddressed device. -/
def wdevsIncr : List Device :=
  [⟨9, some 0, false, false⟩, ⟨4, none, false, false⟩]

/-- Two unaddressed input devices. -/
def winputs2 : List Device :=
  [⟨11, none, false, false⟩, ⟨6, none, false, false⟩]

/-- The boundary population for the incremental pass: sixty-three devices
already holding the short addresses 0 … 62, plus one unaddressed device. -/
def wdevs63full : List Device :=
  (List.range 63).map (fun i => ⟨i, some i, false, false⟩) ++ [⟨63, none, false, false⟩]

/-- The state produced by `assign_addresses_input` on an empty population
(used to instantiate the C5 theorem on a closed input). -/
def stC5ex : AAState :=
  (assign_addresses_input true 0 1 []).getD ⟨[], 0, [], []⟩

end DALI

namespace DALI

/-! ### Frame-encoding and response-checking claims -/

/-- Claim C8: for every address `a` in [0,127] the standard-command
address byte is `(a & 0x80) | ((a << 1) | 1)` and the direct-arc-power
address byte is `(a & 0x80) | (a << 1)` (both truncated to 8 bits); the
two encodings differ only in the least significant bit and both keep the
bits of `a & 0x80` set in the result. -/
theorem claim_C8 : ∀ a : Nat, a ≤ 127 →
    standardAddrByte a = ((a &&& 0x80) ||| ((a <<< 1) ||| 1)) % 256 ∧
    directAddrByte a = ((a &&& 0x80) ||| (a <<< 1)) % 256 ∧
    standardAddrByte a = directAddrByte a ||| 1 ∧
    directAddrByte a = standardAddrByte a &&& 0xFE ∧
    standardAddrByte a / 2 = directAddrByte a / 2 ∧
    standardAddrByte a % 2 = 1 ∧
    directAddrByte a % 2 = 0 ∧
    (a &&& 0x80) ||| standardAddrByte a = standardAddrByte a ∧
    (a &&& 0x80) ||| directAddrByte a = directAddrByte a := by
  decide

/-- Witness for C8 at address 35. -/
theorem claim_C8_witness : standardAddrByte 35 = directAddrByte 35 ||| 1 :=
  (claim_C8 35 (by decide)).2.2.1

/-- Claim C9: for every group number `g` in [0,15], `get_group_addr g`
has its high bit set (it equals `0x80 | g`) and `g` is recovered as
`get_group_addr g & 0x0F`. -/
theorem claim_C9 : ∀ g : Nat, g ≤ 15 →
    get_group_addr g = 0x80 ||| g ∧
    get_group_addr g &&& 0x80 = 0x80 ∧
    get_group_addr g &&& 0x0F = g := by
  decide

/-- Witness for C9 at group 5. -/
theorem claim_C9_witness : get_group_addr 5 &&& 0x0F = 5 :=
  (claim_C9 5 (by decide)).2.2

/-- Claim C7: `check_response(expected)` reads exactly one value from the
transceiver (it is a function of the single received value), returns
`false` when that value is negative (timeout / no response) and otherwise
returns true iff the value equals `expected`; the affirmative sentinel is
the fixed byte 0xFF. -/
theorem claim_C7 : YES = 0xFF ∧ ∀ (expected : Nat) (response : Int),
    (response < 0 → check_response expected response = false) ∧
    (0 ≤ response → (check_response expected response = true ↔ response = (expected : Int))) := by
  refine ⟨rfl, fun e r => ⟨fun h => ?_, fun h => ?_⟩⟩
  · simp [check_response, h]
  · simp [check_response, Int.not_lt.mpr h]

/-- Witness for C7: a timeout is classified as `false`. -/
theorem claim_C7_witness : check_response 0xFF (-1) = false :=
  (claim_C7.2 0xFF (-1)).1 (by decide)

/-- Counterexample for C4: when the transceiver reports the timeout with
the negative value -2, `get_level` returns 254, which lies in the valid
level range [0,254] and is identical to the answer for a genuine level
reading of 254 — not a failure indicator. -/
theorem claim_C4_counterexample :
    get_level (-2) = 254 ∧ get_level 254 = 254 ∧ 254 ≤ 254 := by
  decide

/-- Claim C4 (amended): when the transceiver reports the timeout with the
value -1, `get_level` (and `get_fade`) return 0xFF = 255, which is
distinguishable from every valid level in [0,254]; for other negative
return values the `uint8_t` truncation can fabricate a valid level. -/
theorem claim_C4 : get_level (-1) = 255 ∧ get_fade (-1) = 255 ∧
    ∀ v : Nat, v ≤ 254 → get_level ((v : Int)) = v ∧ get_level ((v : Int)) ≠ get_level (-1) := by
  refine ⟨by decide, by decide, fun v hv => ⟨?_, ?_⟩⟩
  · simp only [get_level]
    omega
  · simp only [get_level]
    omega

/-- Witness for C4 (amended) at level 7. -/
theorem claim_C4_witness : get_level ((7 : Nat) : Int) = 7 :=
  (claim_C4.2.2 7 (by decide)).1

/-! ### The input-pass INITIALISE payload (claim C5) -/

/-- The input-device discovery loop only appends to the trace. -/
theorem assignInputLoop_trace_mono : ∀ (fuel : Nat) (st st' : AAState),
    assignInputLoop fuel st = some st' → st.trace <+: st'.trace := by
  intro fuel
  induction fuel with
  | zero => intro st st' h; simp [assignInputLoop] at h
  | succ n ih =>
    intro st st' h
    simp only [assignInputLoop] at h
    by_cases hc : compareYes st.devs 0xFFFFFF
    · rw [if_pos hc] at h
      have htr := ih _ _ h
      simp only at htr
      repeat' split at htr
      all_goals refine List.IsPrefix.trans ?_ htr
      all_goals simp [List.append_assoc]
    · rw [if_neg hc] at h
      obtain rfl := Option.some.inj h
      simp

/-- Claim C5 (code behaviour at the failing input): every run of
`assign_addresses_input` — in particular with `reset = true` — starts by
sending the INITIALISE input frame (instance 0x01) twice with payload
0xFF, not 0x00: the computed `opcode = reset ? 0x00 : 0xFF` is never
used. -/
theorem claim_C5 : ∀ (reset : Bool) (num_found fuel : Nat) (devs : List Device) (st : AAState),
    assign_addresses_input reset num_found fuel devs = some st →
    st.trace.take 2 = [BusEvent.send24 (specialInputWord 0x01 0xFF),
                       BusEvent.send24 (specialInputWord 0x01 0xFF)] := by
  intro reset num_found fuel devs st h
  simp only [assign_addresses_input] at h
  cases hl : assignInputLoop fuel
      { devs := sessionStart 0xFF devs, numAssigned := num_found % 256,
        assigned := List.replicate 63 false,
        trace := [BusEvent.send24 (specialInputWord 0x01 0xFF),
                  BusEvent.send24 (specialInputWord 0x01 0xFF),
                  BusEvent.send24 (specialInputWord 0x02 0x00),
                  BusEvent.send24 (specialInputWord 0x02 0x00),
                  BusEvent.waitMs 100] } with
  | none => rw [hl] at h; simp at h
  | some st1 =>
    rw [hl] at h
    simp only [Option.some.injEq] at h
    obtain ⟨tr, htr⟩ := assignInputLoop_trace_mono _ _ _ hl
    subst h
    simp only [← htr]
    rfl

/-- Witness for C5: the concrete first two frames of an
`assign_addresses_input(true, 0)` run. -/
theorem claim_C5_witness :
    stC5ex.trace.take 2 = [BusEvent.send24 (specialInputWord 0x01 0xFF),
                           BusEvent.send24 (specialInputWord 0x01 0xFF)] :=
  claim_C5 true 0 1 [] stC5ex (by rfl)

/-! ### Bit-manipulation lemmas for the 24-bit binary search -/

/-- Bits of `q * 2^i + r` with `r < 2^i`: the low `i` bits come from `r`,
the rest from `q`. -/
theorem testBit_decompose (q r i j : Nat) (hr : r < 2^i) :
    Nat.testBit (q * 2^i + r) j = if j < i then Nat.testBit r j else Nat.testBit q (j - i) := by
  by_cases hj : j < i
  · rw [if_pos hj, Nat.testBit_to_div_mod, Nat.testBit_to_div_mod]
    have hsplit : (2:Nat)^i = 2^j * (2 * 2^(i - j - 1)) := by
      rw [← pow_succ', ← pow_add]
      congr 1
      omega
    have hdiv : (q * 2^i + r) / 2^j = 2 * (2^(i - j - 1) * q) + r / 2^j := by
      rw [show q * 2^i + r = 2^j * (2 * (2^(i - j - 1) * q)) + r by rw [hsplit]; ring,
        Nat.mul_add_div (Nat.two_pow_pos j)]
    rw [hdiv]
    simp only [decide_eq_decide]
    omega
  · rw [if_neg hj]
    rw [Nat.testBit_to_div_mod, Nat.testBit_to_div_mod]
    have hDD : (q * 2^i + r) / 2^j = q / 2^(j - i) := by
      rw [show (2:Nat)^j = 2^i * 2^(j - i) by rw [← pow_add]; congr 1; omega,
        ← Nat.div_div_eq_div_mul,
        show q * 2^i + r = 2^i * q + r by ring,
        Nat.mul_add_div (Nat.two_pow_pos i), Nat.div_eq_of_lt hr, Nat.add_zero]
    rw [hDD]

/-- Bits of `a * 2^k`: the low `k` bits are zero. -/
theorem testBit_mul_pow (a k j : Nat) :
    Nat.testBit (a * 2^k) j = if j < k then false else Nat.testBit a (j - k) := by
  have h := testBit_decompose a 0 k j (Nat.two_pow_pos k)
  simpa using h

/-- Clearing bit `i` of `q * 2^(i+1) + (2^(i+1) - 1)` with the `uint32_t`
complement mask `0xFFFFFFFF ^ (1 << i)` yields
`q * 2^(i+1) + (2^i - 1)`. -/
theorem clear_bit (q i : Nat) (hi : i < 32) (hlt : q * 2^(i+1) + (2^(i+1) - 1) < 2^32) :
    (q * 2^(i+1) + (2^(i+1) - 1)) &&& (UINT32_MASK ^^^ (1 <<< i)) = q * 2^(i+1) + (2^i - 1) := by
  have hQ : 0 < (2:Nat)^i := Nat.two_pow_pos i
  have hQ1 : 0 < (2:Nat)^(i+1) := Nat.two_pow_pos (i+1)
  have hQle : (2:Nat)^i ≤ 2^(i+1) := Nat.pow_le_pow_right (by norm_num) (by omega)
  have hq : q < 2^(31 - i) := by
    have h1 : (2:Nat)^32 = 2^(i+1) * 2^(31 - i) := by
      rw [← pow_add]
      congr 1
      omega
    by_contra hcon
    push_neg at hcon
    have h2 : 2^(i+1) * 2^(31 - i) ≤ 2^(i+1) * q := Nat.mul_le_mul_left _ hcon
    have h3 : 2^(i+1) * q = q * 2^(i+1) := by ring
    omega
  apply Nat.eq_of_testBit_eq
  intro j
  have hmask : UINT32_MASK = 2^32 - 1 := by norm_num [UINT32_MASK]
  rw [hmask, Nat.one_shiftLeft, Nat.testBit_and, Nat.testBit_xor,
    testBit_decompose q _ (i+1) j (by omega),
    testBit_decompose q _ (i+1) j (by omega),
    Nat.testBit_two_pow_sub_one, Nat.testBit_two_pow_sub_one, Nat.testBit_two_pow_sub_one,
    Nat.testBit_two_pow]
  rcases Nat.lt_trichotomy j i with hji | rfl | hij
  · simp [show j < i + 1 by omega, show j < i by omega, show j < 32 by omega,
      show ¬(i = j) by omega]
  · simp [show j < j + 1 by omega, show j < 32 by omega]
  · by_cases hj32 : j < 32
    · simp [show ¬(j < i + 1) by omega, show ¬(j < i) by omega, hj32,
        show ¬(i = j) by omega]
    · have hfq : Nat.testBit q (j - (i+1)) = false := by
        apply Nat.testBit_lt_two_pow
        exact lt_of_lt_of_le hq (Nat.pow_le_pow_right (by norm_num) (by omega))
      simp [show ¬(j < i + 1) by omega, show ¬(j < i) by omega, hj32,
        show ¬(i = j) by omega, hfq]

/-- Restoring bit `i` of `q * 2^(i+1) + (2^i - 1)` yields
`q * 2^(i+1) + (2^(i+1) - 1)`. -/
theorem set_bit (q i : Nat) :
    (q * 2^(i+1) + (2^i - 1)) ||| (1 <<< i) = q * 2^(i+1) + (2^(i+1) - 1) := by
  have hQ : 0 < (2:Nat)^i := Nat.two_pow_pos i
  have hQ1 : 0 < (2:Nat)^(i+1) := Nat.two_pow_pos (i+1)
  have hQle : (2:Nat)^i ≤ 2^(i+1) := Nat.pow_le_pow_right (by norm_num) (by omega)
  apply Nat.eq_of_testBit_eq
  intro j
  rw [Nat.one_shiftLeft, Nat.testBit_or,
    testBit_decompose q _ (i+1) j (by omega),
    testBit_decompose q _ (i+1) j (by omega),
    Nat.testBit_two_pow, Nat.testBit_two_pow_sub_one, Nat.testBit_two_pow_sub_one]
  rcases Nat.lt_trichotomy j i with hji | rfl | hij
  · simp [show j < i + 1 by omega, show j < i by omega, show ¬(i = j) by omega]
  · simp [show j < j + 1 by omega]
  · simp [show ¬(j < i + 1) by omega, show ¬(j < i) by omega, show ¬(i = j) by omega]

/-- Disjoint OR is addition: `(a * 2^k) ||| b = a * 2^k + b` for `b < 2^k`. -/
theorem mul_pow_lor_eq_add (a b k : Nat) (hb : b < 2^k) : (a * 2^k) ||| b = a * 2^k + b := by
  apply Nat.eq_of_testBit_eq
  intro j
  rw [Nat.testBit_or, testBit_mul_pow, testBit_decompose a b k j hb]
  by_cases hj : j < k
  · simp [hj]
  · have hbf : Nat.testBit b j = false := by
      apply Nat.testBit_lt_two_pow
      exact lt_of_lt_of_le hb (Nat.pow_le_pow_right (by norm_num) (by omega))
    simp [hj, hbf]

/-- `specialWord a b` is just `a * 256 + b` when the data byte is in
range. -/
theorem specialWord_eq (a b : Nat) (hb : b < 256) : specialWord a b = a * 256 + b := by
  have h : specialWord a b = (a * 2^8) ||| b := by
    simp [specialWord, Nat.shiftLeft_eq]
  rw [h, mul_pow_lor_eq_add a b 8 (by norm_num; omega)]
  norm_num

/-! ### COMPARE semantics and the binary-search minimum (claim C2) -/

/-- COMPARE answers YES iff some still-responsive device's random address
is ≤ the search address. -/
theorem compareYes_iff (devs : List Device) (c : Nat) :
    compareYes devs c = true ↔ ∃ a ∈ activeAddrs devs, a ≤ c := by
  simp only [compareYes, List.any_eq_true, activeAddrs, List.mem_map, List.mem_filter,
    Bool.and_eq_true, decide_eq_true_eq]
  constructor
  · rintro ⟨d, hd, hresp, hle⟩
    exact ⟨d.randomAddr, ⟨d, ⟨hd, hresp⟩, rfl⟩, hle⟩
  · rintro ⟨a, ⟨d, ⟨hd, hresp⟩, rfl⟩, hle⟩
    exact ⟨d, hd, hresp, hle⟩

/-- With `m` the minimum active random address, COMPARE at search address
`c` answers YES exactly when `m ≤ c`. -/
theorem compareYes_min (devs : List Device) (m c : Nat)
    (hm : m ∈ activeAddrs devs) (hmin : ∀ a ∈ activeAddrs devs, m ≤ a) :
    compareYes devs c = decide (m ≤ c) := by
  by_cases h : m ≤ c
  · rw [decide_eq_true h]
    exact (compareYes_iff devs c).mpr ⟨m, hm, h⟩
  · rw [decide_eq_false h]
    rw [← Bool.not_eq_true]
    intro hcon
    obtain ⟨a, ha, hac⟩ := (compareYes_iff devs c).mp hcon
    exact h (le_trans (hmin a ha) hac)

/-- Invariant of the binary-search loop: if the search address agrees
with the minimum `m` on the bits above `i` and is all-ones below, the
remaining `i` iterations drive it down to `m` exactly. -/
theorem searchIter_min_aux (devs : List Device) (m : Nat)
    (hm : m ∈ activeAddrs devs) (hmin : ∀ a ∈ activeAddrs devs, m ≤ a) (hm24 : m < 2^24) :
    ∀ i, i ≤ 24 → ∀ q r, m = q * 2^i + r → r < 2^i →
      (searchIter devs i (q * 2^i + (2^i - 1))).1 = m := by
  intro i
  induction i with
  | zero =>
    intro _ q r hqr hr
    simp only [searchIter, pow_zero] at *
    omega
  | succ i ih =>
    intro hi q r hqr hr
    have hQ : 0 < (2:Nat)^i := Nat.two_pow_pos i
    have hP2 : (2:Nat)^(i+1) = 2 * 2^i := by rw [pow_succ]; ring
    have hs32 : q * 2^(i+1) + (2^(i+1) - 1) < 2^32 := by
      have h1 : q * 2^(i+1) ≤ m := by omega
      have h2 : (2:Nat)^(i+1) ≤ 2^24 := Nat.pow_le_pow_right (by norm_num) (by omega)
      have h3 : (2:Nat)^24 ≤ 2^32 := by norm_num
      omega
    simp only [searchIter]
    rw [clear_bit q i (by omega) hs32]
    rw [compareYes_min devs m _ hm hmin]
    by_cases hcase : r < 2^i
    · have hle : m ≤ q * 2^(i+1) + (2^i - 1) := by omega
      rw [if_pos (decide_eq_true hle)]
      have hrw : q * 2^(i+1) + (2^i - 1) = (2*q) * 2^i + (2^i - 1) := by
        rw [hP2]; ring_nf
      rw [hrw]
      refine ih (by omega) (2*q) r ?_ hcase
      have h2 : q * (2 * 2^i) = 2*q * 2^i := by ring
      rw [hP2] at hqr
      omega
    · have hgt : ¬ (m ≤ q * 2^(i+1) + (2^i - 1)) := by omega
      have hcond : ¬ (decide (m ≤ q * 2^(i+1) + (2^i - 1)) = true) := by
        simp only [decide_eq_true_eq]
        exact hgt
      rw [if_neg hcond]
      rw [set_bit q i]
      have h2 : (2*q+1) * 2^i = q * 2^(i+1) + 2^i := by rw [hP2]; ring
      have hrw : q * 2^(i+1) + (2^(i+1) - 1) = (2*q+1) * 2^i + (2^i - 1) := by omega
      rw [hrw]
      exact ih (by omega) (2*q+1) (r - 2^i) (by omega) (by omega)

/-- The full 24-bit binary search started at 0xFFFFFF resolves to the
minimum active random address. -/
theorem searchIter_min (devs : List Device) (m : Nat)
    (hm : m ∈ activeAddrs devs) (hmin : ∀ a ∈ activeAddrs devs, m ≤ a)
    (hm24 : m < 2^24) :
    (searchIter devs 24 0xFFFFFF).1 = m := by
  have h := searchIter_min_aux devs m hm hmin hm24 24 (le_refl _) 0 m (by omega) hm24
  rw [show (0xFFFFFF : Nat) = 0 * 2^24 + (2^24 - 1) by norm_num]
  exact h

/-- Claim C2: for every non-empty set of still-responsive devices (COMPARE
modelled as YES iff some responsive device's random address is ≤ the
search address), the 24-iteration inner loop started at 0xFFFFFF
terminates with the search address equal to the minimum random address
among the remaining devices. -/
theorem claim_C2 : ∀ (devs : List Device) (m : Nat),
    m ∈ activeAddrs devs → (∀ a ∈ activeAddrs devs, m ≤ a) →
    (∀ a ∈ activeAddrs devs, a < 2^24) →
    (searchIter devs 24 0xFFFFFF).1 = m := by
  intro devs m hm hmin hbound
  exact searchIter_min devs m hm hmin (hbound m hm)

/-- Witness for C2 on a concrete three-device session: the minimum random
address is 2. -/
theorem claim_C2_witness : (searchIter (sessionStart 0x00 wdevs3) 24 0xFFFFFF).1 = 2 :=
  claim_C2 (sessionStart 0x00 wdevs3) 2 (by decide) (by decide) (by decide)

/-! ### Trace bookkeeping lemmas -/

theorem programWords_append (a b : List BusEvent) :
    programWords (a ++ b) = programWords a ++ programWords b :=
  List.filterMap_append a b _

theorem sendCount_append (w : Nat) (a b : List BusEvent) :
    sendCount w (a ++ b) = sendCount w a + sendCount w b :=
  List.count_append _ a b

/-- The address byte of a special frame is recovered by shifting. -/
theorem specialWord_shiftRight (a b : Nat) (hb : b < 256) : (specialWord a b) >>> 8 = a := by
  rw [specialWord_eq a b hb, Nat.shiftRight_eq_div_pow,
    show (2:Nat)^8 = 256 by norm_num,
    show a * 256 + b = 256 * a + b by ring,
    Nat.mul_add_div (by norm_num), Nat.div_eq_of_lt hb, Nat.add_zero]

/-- Distinct address bytes give distinct special frames. -/
theorem specialWord_ne (a b a' b' : Nat) (hb : b < 256) (hb' : b' < 256) (ha : a ≠ a') :
    specialWord a b ≠ specialWord a' b' := by
  rw [specialWord_eq a b hb, specialWord_eq a' b' hb']
  omega

theorem payloadH_lt (v : Nat) : (v >>> 16) % 256 < 256 := Nat.mod_lt _ (by norm_num)

theorem payloadAnd_lt (v : Nat) : v &&& 0xFF < 256 :=
  lt_of_le_of_lt Nat.and_le_right (by norm_num)

/-- No PROGRAM_SHORT_ADDR frame in a single non-0xB7 special frame. -/
theorem programWords_single (a b : Nat) (hb : b < 256) (ha : a ≠ PROGRAM_SHORT_ADDR) :
    programWords [BusEvent.send (specialWord a b)] = [] := by
  simp [programWords, specialWord_shiftRight a b hb, ha]

/-- A PROGRAM_SHORT_ADDR frame is collected by `programWords`. -/
theorem programWords_prog (b : Nat) (hb : b < 256) :
    programWords [BusEvent.send (specialWord PROGRAM_SHORT_ADDR b)] =
      [specialWord PROGRAM_SHORT_ADDR b] := by
  simp [programWords, specialWord_shiftRight _ b hb]

theorem sendCount_single_ne (w : Nat) (e : BusEvent) (hne : e ≠ BusEvent.send w) :
    sendCount w [e] = 0 := by
  simp [sendCount, List.count_singleton, hne]

theorem programWords_setSearch (v : Nat) : programWords (set_search_address v) = [] := by
  have h := programWords_append
  simp only [set_search_address,
    show [BusEvent.send (specialWord SEARCHADDRH ((v >>> 16) % 256)),
          BusEvent.send (specialWord SEARCHADDRM ((v >>> 8) &&& 0xFF)),
          BusEvent.send (specialWord SEARCHADDRL (v &&& 0xFF))] =
      [BusEvent.send (specialWord SEARCHADDRH ((v >>> 16) % 256))] ++
      [BusEvent.send (specialWord SEARCHADDRM ((v >>> 8) &&& 0xFF))] ++
      [BusEvent.send (specialWord SEARCHADDRL (v &&& 0xFF))] from rfl,
    programWords_append]
  rw [programWords_single _ _ (payloadH_lt v) (by decide),
    programWords_single _ _ (payloadAnd_lt (v >>> 8)) (by decide),
    programWords_single _ _ (payloadAnd_lt v) (by decide)]
  rfl

theorem sendCount_term_setSearch (v : Nat) :
    sendCount (specialWord TERMINATE 0x00) (set_search_address v) = 0 := by
  simp only [set_search_address,
    show [BusEvent.send (specialWord SEARCHADDRH ((v >>> 16) % 256)),
          BusEvent.send (specialWord SEARCHADDRM ((v >>> 8) &&& 0xFF)),
          BusEvent.send (specialWord SEARCHADDRL (v &&& 0xFF))] =
      [BusEvent.send (specialWord SEARCHADDRH ((v >>> 16) % 256))] ++
      [BusEvent.send (specialWord SEARCHADDRM ((v >>> 8) &&& 0xFF))] ++
      [BusEvent.send (specialWord SEARCHADDRL (v &&& 0xFF))] from rfl,
    sendCount_append]
  rw [sendCount_single_ne _ _ (by
      simp only [ne_eq, BusEvent.send.injEq]
      exact specialWord_ne _ _ _ _ (payloadH_lt v) (by norm_num) (by decide)),
    sendCount_single_ne _ _ (by
      simp only [ne_eq, BusEvent.send.injEq]
      exact specialWord_ne _ _ _ _ (payloadAnd_lt (v >>> 8)) (by norm_num) (by decide)),
    sendCount_single_ne _ _ (by
      simp only [ne_eq, BusEvent.send.injEq]
      exact specialWord_ne _ _ _ _ (payloadAnd_lt v) (by norm_num) (by decide))]

/-- No PROGRAM_SHORT_ADDR or TERMINATE frame in the binary-search trace. -/
theorem searchIter_trace (devs : List Device) :
    ∀ (i : Nat) (s : Nat),
      programWords (searchIter devs i s).2 = [] ∧
      sendCount (specialWord TERMINATE 0x00) (searchIter devs i s).2 = 0 := by
  intro i
  induction i with
  | zero => intro s; simp [searchIter, programWords, sendCount]
  | succ k ih =>
    intro s
    simp only [searchIter]
    constructor
    · rw [programWords_append, programWords_append, programWords_setSearch,
        programWords_single _ _ (by norm_num) (by decide), (ih _).1]
      rfl
    · rw [sendCount_append, sendCount_append, sendCount_term_setSearch,
        sendCount_single_ne _ _ (by
          simp only [ne_eq, BusEvent.send.injEq]
          exact specialWord_ne _ _ _ _ (by norm_num) (by norm_num) (by decide)),
        (ih _).2]

theorem programWords_compare : programWords [BusEvent.send (specialWord COMPARE 0x00)] = [] :=
  programWords_single COMPARE 0x00 (by norm_num) (by decide)

theorem sendCount_term_compare :
    sendCount (specialWord TERMINATE 0x00) [BusEvent.send (specialWord COMPARE 0x00)] = 0 :=
  sendCount_single_ne _ _ (by
    simp only [ne_eq, BusEvent.send.injEq]
    exact specialWord_ne COMPARE 0x00 TERMINATE 0x00 (by norm_num) (by norm_num) (by decide))

/-- The program-and-withdraw frame pair contributes exactly the
PROGRAM_SHORT_ADDR frame. -/
theorem programWords_prog_wd (b : Nat) (hb : b < 256) :
    programWords [BusEvent.send (specialWord PROGRAM_SHORT_ADDR b),
                  BusEvent.send (specialWord WITHDRAW 0x00)] =
      [specialWord PROGRAM_SHORT_ADDR b] := by
  rw [show [BusEvent.send (specialWord PROGRAM_SHORT_ADDR b),
            BusEvent.send (specialWord WITHDRAW 0x00)] =
      [BusEvent.send (specialWord PROGRAM_SHORT_ADDR b)] ++
      [BusEvent.send (specialWord WITHDRAW 0x00)] from rfl,
    programWords_append, programWords_prog b hb,
    programWords_single WITHDRAW 0x00 (by norm_num) (by decide)]
  rfl

theorem sendCount_term_prog_wd (b : Nat) (hb : b < 256) :
    sendCount (specialWord TERMINATE 0x00)
      [BusEvent.send (specialWord PROGRAM_SHORT_ADDR b),
       BusEvent.send (specialWord WITHDRAW 0x00)] = 0 := by
  rw [show [BusEvent.send (specialWord PROGRAM_SHORT_ADDR b),
            BusEvent.send (specialWord WITHDRAW 0x00)] =
      [BusEvent.send (specialWord PROGRAM_SHORT_ADDR b)] ++
      [BusEvent.send (specialWord WITHDRAW 0x00)] from rfl,
    sendCount_append,
    sendCount_single_ne _ _ (by
      simp only [ne_eq, BusEvent.send.injEq]
      exact specialWord_ne PROGRAM_SHORT_ADDR b TERMINATE 0x00 hb (by norm_num) (by decide)),
    sendCount_single_ne _ _ (by
      simp only [ne_eq, BusEvent.send.injEq]
      exact specialWord_ne WITHDRAW 0x00 TERMINATE 0x00 (by norm_num) (by norm_num) (by decide))]

theorem programWords_initRefresh : programWords initRefresh = [] := by
  rw [show initRefresh = [BusEvent.send (specialWord INITIALISE 0x00)] ++
      [BusEvent.send (specialWord INITIALISE 0x00)] from rfl, programWords_append,
    programWords_single _ _ (by norm_num) (by decide)]
  rfl

theorem sendCount_term_initRefresh :
    sendCount (specialWord TERMINATE 0x00) initRefresh = 0 := by
  rw [show initRefresh = [BusEvent.send (specialWord INITIALISE 0x00)] ++
      [BusEvent.send (specialWord INITIALISE 0x00)] from rfl, sendCount_append,
    sendCount_single_ne _ _ (by
      simp only [ne_eq, BusEvent.send.injEq]
      exact specialWord_ne _ _ _ _ (by norm_num) (by norm_num) (by decide))]

/-! ### Device-list step lemmas -/

/-- Program-then-withdraw fuses into a single pointwise device update. -/
theorem wp_eq_map (m v : Nat) (devs : List Device) :
    withdrawAt m (programAt m v devs) =
      devs.map (fun d => if responsive d && d.randomAddr == m then
        { d with shortAddr := some ((v >>> 1) &&& 0x3F), withdrawn := true } else d) := by
  simp only [withdrawAt, programAt, List.map_map]
  congr 1
  funext d
  by_cases h : (responsive d && d.randomAddr == m) = true
  · have hresp : responsive { d with shortAddr := some ((v >>> 1) &&& 0x3F) } = responsive d := rfl
    simp only [Function.comp_apply, h, if_true, hresp]
  · simp only [Function.comp_apply, h, Bool.false_eq_true, if_false]

/-- `activeAddrs` on a cons. -/
theorem activeAddrs_cons (d : Device) (l : List Device) :
    activeAddrs (d :: l) =
      if responsive d then d.randomAddr :: activeAddrs l else activeAddrs l := by
  by_cases h : responsive d = true
  · simp [activeAddrs, List.filter_cons, h]
  · have h' : responsive d = false := by simpa using h
    simp [activeAddrs, List.filter_cons, h']

/-- Programming then withdrawing the selected device at address `m`
removes exactly the occurrences of `m` from the active address list. -/
theorem activeAddrs_after_wp (m v : Nat) (devs : List Device) :
    activeAddrs (withdrawAt m (programAt m v devs)) = (activeAddrs devs).filter (· != m) := by
  rw [wp_eq_map]
  induction devs with
  | nil => rfl
  | cons d l ih =>
    simp only [List.map_cons]
    by_cases hg : (responsive d && d.randomAddr == m) = true
    · obtain ⟨hr, hm⟩ : responsive d = true ∧ d.randomAddr = m := by simpa using hg
      rw [if_pos hg, activeAddrs_cons, activeAddrs_cons]
      have h2 : responsive { d with shortAddr := some ((v >>> 1) &&& 0x3F), withdrawn := true } = false := by
        simp [responsive]
      rw [if_neg (by simp [h2]), if_pos hr, List.filter_cons, if_neg (by simp [hm]), ih]
    · rw [if_neg hg, activeAddrs_cons, activeAddrs_cons]
      by_cases hr : responsive d = true
      · have hm : (d.randomAddr != m) = true := by
          have hne : ¬ (d.randomAddr = m) := fun hc => hg (by simp [hr, hc])
          simpa using hne
        rw [if_pos hr, if_pos hr, List.filter_cons, if_pos hm, ih]
      · rw [if_neg hr, if_neg hr, ih]

/-- Devices that are not responsive are untouched by a
program-and-withdraw step. -/
theorem untouched_wp (m v : Nat) (devs : List Device) (i : Nat) (d : Device)
    (hd : devs[i]? = some d) (hresp : responsive d = false) :
    (withdrawAt m (programAt m v devs))[i]? = some d := by
  simp only [withdrawAt, programAt, List.getElem?_map, hd, Option.map_some']
  simp [hresp]

/-- With no active device, COMPARE never answers YES. -/
theorem compareYes_empty (devs : List Device) (c : Nat) (h : activeAddrs devs = []) :
    compareYes devs c = false := by
  rw [← Bool.not_eq_true]
  intro hc
  obtain ⟨a, ha, _⟩ := (compareYes_iff _ _).mp hc
  rw [h] at ha
  exact absurd ha (List.not_mem_nil a)

/-- With an active device below 2^24, COMPARE at 0xFFFFFF answers YES. -/
theorem compareYes_top (devs : List Device) (m : Nat) (hm : m ∈ activeAddrs devs)
    (hbound : ∀ a ∈ activeAddrs devs, a < 2^24) : compareYes devs 0xFFFFFF = true :=
  (compareYes_iff _ _).mpr ⟨m, hm, by have := hbound m hm; omega⟩

/-- COMPARE at an active device's own address answers YES. -/
theorem compareYes_self (devs : List Device) (m : Nat) (hm : m ∈ activeAddrs devs) :
    compareYes devs m = true :=
  (compareYes_iff _ _).mpr ⟨m, hm, le_refl m⟩

/-- `getD` after `set` at a different index. -/
theorem getD_set_ne (l : List Bool) (i j : Nat) (b : Bool) (h : i ≠ j) :
    (l.set i b).getD j false = l.getD j false := by
  simp [List.getD_eq_getElem?_getD, List.getElem?_set_ne h]

/-- Every nonempty list of naturals has a minimum element. -/
theorem exists_list_min : ∀ (l : List Nat), l ≠ [] → ∃ m, m ∈ l ∧ ∀ a ∈ l, m ≤ a := by
  intro l
  induction l with
  | nil => intro h; exact absurd rfl h
  | cons a l ih =>
    intro _
    by_cases hl : l = []
    · subst hl
      exact ⟨a, by simp⟩
    · obtain ⟨m, hm, hmin⟩ := ih hl
      rcases le_total a m with h | h
      · refine ⟨a, by simp, ?_⟩
        intro b hb
        rcases List.mem_cons.mp hb with rfl | hb
        · exact le_refl _
        · exact le_trans h (hmin b hb)
      · refine ⟨m, List.mem_cons_of_mem _ hm, ?_⟩
        intro b hb
        rcases List.mem_cons.mp hb with rfl | hb
        · exact h
        · exact hmin b hb

/-! ### The outer discovery loop -/

/-- One productive iteration of `assignLoop`: with active devices left,
distinct addresses, the counter below 63 and the counter's slot unmarked,
the loop resolves the minimum address `m`, programs the counter as its
short address, withdraws it, refreshes INITIALISE and continues. -/
theorem assignLoop_step (devs : List Device) (counter : Nat) (assigned : List Bool)
    (tr : List BusEvent) (fuel : Nat) (m : Nat)
    (hm : m ∈ activeAddrs devs) (hmin : ∀ a ∈ activeAddrs devs, m ≤ a)
    (hbound : ∀ a ∈ activeAddrs devs, a < 2^24)
    (hc63 : counter < 63)
    (hinv : assigned.getD counter false = false) :
    assignLoop (fuel + 1) ⟨devs, counter, assigned, tr⟩ =
      assignLoop fuel
        ⟨withdrawAt m (programAt m ((counter <<< 1) + 1) devs),
         counter + 1, assigned.set counter true,
         tr ++ (set_search_address 0xFFFFFF ++ [BusEvent.send (specialWord COMPARE 0x00)]) ++
           (searchIter devs 24 0xFFFFFF).2 ++
           (set_search_address m ++ [BusEvent.send (specialWord COMPARE 0x00)]) ++
           [BusEvent.send (specialWord PROGRAM_SHORT_ADDR ((counter <<< 1) + 1)),
            BusEvent.send (specialWord WITHDRAW 0x00)] ++ initRefresh⟩ := by
  have hcmpTop : compareYes devs 0xFFFFFF = true := compareYes_top devs m hm hbound
  have hcmpM : compareYes devs m = true := compareYes_self devs m hm
  have hs : (searchIter devs 24 0xFFFFFF).1 = m := searchIter_min devs m hm hmin (hbound m hm)
  simp only [assignLoop]
  rw [if_pos hcmpTop, if_pos hc63, hs, if_pos hcmpM, if_pos hc63, hinv,
    if_neg Bool.false_ne_true]

/-- Full correctness of the `assign_addresses` outer loop on a
distinct-address population: with `n` active devices and room below the
63 cap, it assigns short addresses `counter, …, counter + n - 1` (one
PROGRAM_SHORT_ADDR frame each, encoded `(k << 1) + 1`, in increasing
order), withdraws every active device, sends no TERMINATE frame, leaves
non-responsive devices untouched and returns `counter + n`. -/
theorem assignLoop_spec : ∀ (n : Nat) (devs : List Device) (counter : Nat) (assigned : List Bool)
    (tr : List BusEvent) (fuel : Nat),
    (activeAddrs devs).length = n →
    (activeAddrs devs).Nodup →
    (∀ a ∈ activeAddrs devs, a < 2^24) →
    counter + n ≤ 63 →
    (∀ j, counter ≤ j → assigned.getD j false = false) →
    n < fuel →
    ∃ st', assignLoop fuel ⟨devs, counter, assigned, tr⟩ = some st' ∧
      st'.numAssigned = counter + n ∧
      activeAddrs st'.devs = [] ∧
      (∃ trNew, st'.trace = tr ++ trNew ∧
        programWords trNew =
          (List.range' counter n).map (fun k => specialWord PROGRAM_SHORT_ADDR ((k <<< 1) + 1)) ∧
        sendCount (specialWord TERMINATE 0x00) trNew = 0) ∧
      (∀ (i : Nat) (d : Device), devs[i]? = some d → responsive d = false → st'.devs[i]? = some d) := by
  intro n
  induction n with
  | zero =>
    intro devs counter assigned tr fuel hlen hnd hb hcap hinv hfuel
    have hempty : activeAddrs devs = [] := List.length_eq_zero.mp hlen
    cases fuel with
    | zero => omega
    | succ f =>
      have hcmp : compareYes devs 0xFFFFFF = false := compareYes_empty devs _ hempty
      refine ⟨⟨devs, counter, assigned,
        tr ++ (set_search_address 0xFFFFFF ++ [BusEvent.send (specialWord COMPARE 0x00)])⟩,
        ?_, by simp, hempty, ?_, ?_⟩
      · simp only [assignLoop, hcmp]
        rw [if_neg Bool.false_ne_true]
      · refine ⟨set_search_address 0xFFFFFF ++ [BusEvent.send (specialWord COMPARE 0x00)],
          rfl, ?_, ?_⟩
        · rw [programWords_append, programWords_setSearch, programWords_compare]
          simp [List.range']
        · rw [sendCount_append, sendCount_term_setSearch, sendCount_term_compare]
      · intro i d hd _
        exact hd
  | succ n ih =>
    intro devs counter assigned tr fuel hlen hnd hb hcap hinv hfuel
    have hne : activeAddrs devs ≠ [] := by
      intro h
      rw [h] at hlen
      simp at hlen
    obtain ⟨m, hm, hmin⟩ := exists_list_min _ hne
    cases fuel with
    | zero => omega
    | succ f =>
      rw [assignLoop_step devs counter assigned tr f m hm hmin hb (by omega)
        (hinv counter (le_refl _))]
      have hA : activeAddrs (withdrawAt m (programAt m ((counter <<< 1) + 1) devs)) =
          (activeAddrs devs).filter (· != m) := activeAddrs_after_wp _ _ _
      have h1 : (activeAddrs (withdrawAt m (programAt m ((counter <<< 1) + 1) devs))).length = n := by
        rw [hA, ← List.Nodup.erase_eq_filter hnd m, List.length_erase_of_mem hm, hlen]
        omega
      have h2 : (activeAddrs (withdrawAt m (programAt m ((counter <<< 1) + 1) devs))).Nodup := by
        rw [hA]
        exact hnd.filter _
      have h3 : ∀ a ∈ activeAddrs (withdrawAt m (programAt m ((counter <<< 1) + 1) devs)),
          a < 2^24 := by
        rw [hA]
        exact fun a ha => hb a (List.mem_of_mem_filter ha)
      have hinv' : ∀ j, counter + 1 ≤ j → (assigned.set counter true).getD j false = false := by
        intro j hj
        rw [getD_set_ne _ _ _ _ (by omega)]
        exact hinv j (by omega)
      obtain ⟨st', heq, hnum, hact, ⟨trNew, htr, hprog, hterm⟩, hunt⟩ :=
        ih (withdrawAt m (programAt m ((counter <<< 1) + 1) devs)) (counter + 1)
          (assigned.set counter true)
          (tr ++ (set_search_address 0xFFFFFF ++ [BusEvent.send (specialWord COMPARE 0x00)]) ++
            (searchIter devs 24 0xFFFFFF).2 ++
            (set_search_address m ++ [BusEvent.send (specialWord COMPARE 0x00)]) ++
            [BusEvent.send (specialWord PROGRAM_SHORT_ADDR ((counter <<< 1) + 1)),
             BusEvent.send (specialWord WITHDRAW 0x00)] ++ initRefresh)
          f h1 h2 h3 (by omega) hinv' (by omega)
      have hpc : (counter <<< 1) + 1 < 256 := by
        rw [Nat.shiftLeft_eq]
        omega
      refine ⟨st', heq, by omega, hact, ?_, ?_⟩
      · refine ⟨(set_search_address 0xFFFFFF ++ [BusEvent.send (specialWord COMPARE 0x00)]) ++
          ((searchIter devs 24 0xFFFFFF).2 ++
            ((set_search_address m ++ [BusEvent.send (specialWord COMPARE 0x00)]) ++
              ([BusEvent.send (specialWord PROGRAM_SHORT_ADDR ((counter <<< 1) + 1)),
                BusEvent.send (specialWord WITHDRAW 0x00)] ++ (initRefresh ++ trNew)))), ?_, ?_, ?_⟩
        · rw [htr]
          simp [List.append_assoc]
        · simp only [programWords_append, programWords_setSearch, programWords_compare,
            (searchIter_trace devs 24 0xFFFFFF).1,
            programWords_prog_wd ((counter <<< 1) + 1) hpc,
            programWords_initRefresh, hprog, List.nil_append, List.append_nil,
            List.range'_succ, List.map_cons, List.singleton_append]
        · simp only [sendCount_append, sendCount_term_setSearch, sendCount_term_compare,
            (searchIter_trace devs 24 0xFFFFFF).2,
            sendCount_term_prog_wd ((counter <<< 1) + 1) hpc,
            sendCount_term_initRefresh, hterm, Nat.add_zero, Nat.zero_add]
      · intro i d hd hresp
        exact hunt i d (untouched_wp m _ devs i d hd hresp) hresp

/-! ### Session start and the full `assign_addresses` pass -/

/-- A full-reset session (INITIALISE payload 0x00) enrols every device. -/
theorem activeAddrs_session0 (devs : List Device) :
    activeAddrs (sessionStart 0x00 devs) = devs.map Device.randomAddr := by
  induction devs with
  | nil => rfl
  | cons d l ih =>
    simp [sessionStart, activeAddrs_cons, responsive] at ih ⊢
    exact ih

/-- The zero-initialised bookkeeping array holds no marks. -/
theorem getD_replicate_false (j : Nat) : (List.replicate 63 false).getD j false = false := by
  rw [List.getD_eq_getElem?_getD]
  rcases h : (List.replicate 63 false)[j]? with _ | b
  · rfl
  · have hb : b ∈ List.replicate 63 false := List.getElem?_mem h
    rw [List.eq_of_mem_replicate hb]
    rfl

/-- Unfolding of `assign_addresses` with `reset = true`: no pre-scan,
counter 0, empty bookkeeping, full-reset session. -/
theorem assign_addresses_true_eq (fuel : Nat) (devs : List Device) :
    assign_addresses true fuel devs =
      match assignLoop fuel (⟨sessionStart 0x00 devs, 0, List.replicate 63 false,
          [BusEvent.send (specialWord INITIALISE 0x00),
           BusEvent.send (specialWord INITIALISE 0x00),
           BusEvent.send (specialWord RANDOMISE 0x00),
           BusEvent.send (specialWord RANDOMISE 0x00),
           BusEvent.waitMs 100]⟩ : AAState) with
      | none => none
      | some st =>
        some { st with trace := st.trace ++ [BusEvent.send (specialWord TERMINATE 0x00)] } := by
  rfl

/-- Claim C1: a full-reset discovery pass (`assign_addresses` with
`reset = true`) over `N` devices (0 < N ≤ 63) holding distinct random
24-bit addresses and no prior short addresses returns `N`, programs
exactly the short addresses 0 … N-1, in order, each with one
PROGRAM_SHORT_ADDR frame encoding `(addr << 1) + 1`, and sends TERMINATE
exactly once — as the final frame, after the outer loop exits. -/
theorem claim_C1 : ∀ (devs : List Device) (fuel : Nat),
    0 < devs.length → devs.length ≤ 63 →
    (devs.map Device.randomAddr).Nodup →
    (∀ d ∈ devs, d.randomAddr < 2^24) →
    (∀ d ∈ devs, d.shortAddr = none) →
    devs.length < fuel →
    (assign_addresses true fuel devs).isSome = true ∧
    ∀ st, assign_addresses true fuel devs = some st →
      st.numAssigned = devs.length ∧
      programWords st.trace =
        (List.range devs.length).map (fun k => specialWord PROGRAM_SHORT_ADDR ((k <<< 1) + 1)) ∧
      sendCount (specialWord TERMINATE 0x00) st.trace = 1 ∧
      st.trace.getLast? = some (BusEvent.send (specialWord TERMINATE 0x00)) := by
  intro devs fuel hpos hle hnd hbound _hshort hfuel
  have h1 : (activeAddrs (sessionStart 0x00 devs)).length = devs.length := by
    rw [activeAddrs_session0, List.length_map]
  have h2 : (activeAddrs (sessionStart 0x00 devs)).Nodup := by
    rw [activeAddrs_session0]
    exact hnd
  have h3 : ∀ a ∈ activeAddrs (sessionStart 0x00 devs), a < 2^24 := by
    rw [activeAddrs_session0]
    intro a ha
    obtain ⟨d, hd, rfl⟩ := List.mem_map.mp ha
    exact hbound d hd
  obtain ⟨st', heq, hnum, _hact, ⟨trNew, htr, hprog, hterm⟩, _hunt⟩ :=
    assignLoop_spec devs.length (sessionStart 0x00 devs) 0 (List.replicate 63 false)
      [BusEvent.send (specialWord INITIALISE 0x00), BusEvent.send (specialWord INITIALISE 0x00),
       BusEvent.send (specialWord RANDOMISE 0x00), BusEvent.send (specialWord RANDOMISE 0x00),
       BusEvent.waitMs 100]
      fuel h1 h2 h3 (by omega) (fun j _ => getD_replicate_false j) hfuel
  have hrun : assign_addresses true fuel devs =
      some { st' with trace := st'.trace ++ [BusEvent.send (specialWord TERMINATE 0x00)] } := by
    rw [assign_addresses_true_eq, heq]
  refine ⟨by rw [hrun]; rfl, ?_⟩
  intro st hst
  rw [hrun] at hst
  obtain rfl := Option.some.inj hst
  refine ⟨by simpa using hnum, ?_, ?_, ?_⟩
  · simp only [htr]
    rw [programWords_append, programWords_append,
      show programWords [BusEvent.send (specialWord INITIALISE 0x00),
        BusEvent.send (specialWord INITIALISE 0x00),
        BusEvent.send (specialWord RANDOMISE 0x00),
        BusEvent.send (specialWord RANDOMISE 0x00),
        BusEvent.waitMs 100] = [] from rfl,
      show programWords [BusEvent.send (specialWord TERMINATE 0x00)] = [] from rfl,
      hprog, List.range_eq_range']
    simp
  · simp only [htr]
    rw [sendCount_append, sendCount_append,
      show sendCount (specialWord TERMINATE 0x00)
        [BusEvent.send (specialWord INITIALISE 0x00),
         BusEvent.send (specialWord INITIALISE 0x00),
         BusEvent.send (specialWord RANDOMISE 0x00),
         BusEvent.send (specialWord RANDOMISE 0x00),
         BusEvent.waitMs 100] = 0 from rfl,
      show sendCount (specialWord TERMINATE 0x00)
        [BusEvent.send (specialWord TERMINATE 0x00)] = 1 from rfl,
      hterm]
  · simp only [List.getLast?_concat]

/-- Witness for C1 on the three-device population. -/
theorem claim_C1_witness : (assign_addresses true 4 wdevs3).isSome = true :=
  (claim_C1 wdevs3 4 (by decide) (by decide) (by decide) (by decide) (by decide)
    (by decide)).1

/-! ### Non-termination past the 63-address cap (claim C3) -/

/-- Once 63 short addresses are assigned, an outer-loop iteration with a
device still active changes nothing and the loop can never exit. -/
theorem assignLoop_stuck (devs : List Device) (counter : Nat) (assigned : List Bool)
    (m : Nat) (hm : m ∈ activeAddrs devs) (hbound : ∀ a ∈ activeAddrs devs, a < 2^24)
    (hc : ¬ (counter < 63)) :
    ∀ (fuel : Nat) (tr : List BusEvent),
      assignLoop fuel ⟨devs, counter, assigned, tr⟩ = none := by
  intro fuel
  induction fuel with
  | zero => intro tr; rfl
  | succ f ih =>
    intro tr
    have hcmp : compareYes devs 0xFFFFFF = true := compareYes_top devs m hm hbound
    simp only [assignLoop]
    rw [if_pos hcmp, if_neg hc]
    exact ih _

/-- With more than 63 − counter distinct active devices the outer loop
runs out of any amount of fuel: it never terminates. -/
theorem assignLoop_overflow : ∀ (fuel n : Nat) (devs : List Device) (counter : Nat)
    (assigned : List Bool) (tr : List BusEvent),
    (activeAddrs devs).length = n →
    (activeAddrs devs).Nodup →
    (∀ a ∈ activeAddrs devs, a < 2^24) →
    63 < counter + n →
    counter ≤ 63 →
    (∀ j, counter ≤ j → assigned.getD j false = false) →
    assignLoop fuel ⟨devs, counter, assigned, tr⟩ = none := by
  intro fuel
  induction fuel with
  | zero => intro n devs counter assigned tr _ _ _ _ _ _; rfl
  | succ f ih =>
    intro n devs counter assigned tr hlen hnd hb hover hcle hinv
    have hne : activeAddrs devs ≠ [] := by
      intro h
      rw [h] at hlen
      simp at hlen
      omega
    obtain ⟨m, hm, hmin⟩ := exists_list_min _ hne
    by_cases hc : counter < 63
    · rw [assignLoop_step devs counter assigned tr f m hm hmin hb hc
        (hinv counter (le_refl _))]
      have hA : activeAddrs (withdrawAt m (programAt m ((counter <<< 1) + 1) devs)) =
          (activeAddrs devs).filter (· != m) := activeAddrs_after_wp _ _ _
      refine ih (n - 1) _ (counter + 1) _ _ ?_ ?_ ?_ ?_ ?_ ?_
      · rw [hA, ← List.Nodup.erase_eq_filter hnd m, List.length_erase_of_mem hm, hlen]
      · rw [hA]
        exact hnd.filter _
      · rw [hA]
        exact fun a ha => hb a (List.mem_of_mem_filter ha)
      · omega
      · omega
      · intro j hj
        rw [getD_set_ne _ _ _ _ (by omega)]
        exact hinv j (by omega)
    · exact assignLoop_stuck devs counter assigned m hm hb hc (f + 1) tr

/-- Claim C3 (code behaviour at the failing input): with more than 63
distinct-address devices, the full-reset discovery pass never terminates
— for every amount of fuel the loop model runs out, so the pass never
reaches TERMINATE (the claim's "still stops" is false of the code). -/
theorem claim_C3 : ∀ (devs : List Device) (fuel : Nat),
    63 < devs.length →
    (devs.map Device.randomAddr).Nodup →
    (∀ d ∈ devs, d.randomAddr < 2^24) →
    assign_addresses true fuel devs = none := by
  intro devs fuel hlen hnd hbound
  have h2 : (activeAddrs (sessionStart 0x00 devs)).Nodup := by
    rw [activeAddrs_session0]
    exact hnd
  have h3 : ∀ a ∈ activeAddrs (sessionStart 0x00 devs), a < 2^24 := by
    rw [activeAddrs_session0]
    intro a ha
    obtain ⟨d, hd, rfl⟩ := List.mem_map.mp ha
    exact hbound d hd
  have hnone := assignLoop_overflow fuel devs.length (sessionStart 0x00 devs) 0
    (List.replicate 63 false)
    [BusEvent.send (specialWord INITIALISE 0x00), BusEvent.send (specialWord INITIALISE 0x00),
     BusEvent.send (specialWord RANDOMISE 0x00), BusEvent.send (specialWord RANDOMISE 0x00),
     BusEvent.waitMs 100]
    (by rw [activeAddrs_session0, List.length_map])
    h2 h3 (by omega) (by omega) (fun j _ => getD_replicate_false j)
  rw [assign_addresses_true_eq, hnone]

/-- Witness for C3: sixty-four devices, no fuel suffices. -/
theorem claim_C3_witness : assign_addresses true 100 wdevs64 = none :=
  claim_C3 wdevs64 100 (by decide) (by decide) (by decide)

/-! ### The `get_highest_address` pre-scan -/

/-- Withdrawing the device at address `m` removes exactly the occurrences
of `m` from the active address list. -/
theorem activeAddrs_after_withdraw (m : Nat) (devs : List Device) :
    activeAddrs (withdrawAt m devs) = (activeAddrs devs).filter (· != m) := by
  induction devs with
  | nil => rfl
  | cons d l ih =>
    simp only [withdrawAt, List.map_cons]
    by_cases hg : (responsive d && d.randomAddr == m) = true
    · obtain ⟨hr, hm⟩ : responsive d = true ∧ d.randomAddr = m := by simpa using hg
      rw [if_pos hg, activeAddrs_cons, activeAddrs_cons]
      have h2 : responsive { d with withdrawn := true } = false := by simp [responsive]
      rw [if_neg (by simp [h2]), if_pos hr, List.filter_cons, if_neg (by simp [hm])]
      exact ih
    · rw [if_neg hg, activeAddrs_cons, activeAddrs_cons]
      by_cases hr : responsive d = true
      · have hm : (d.randomAddr != m) = true := by
          have hne : ¬ (d.randomAddr = m) := fun hc => hg (by simp [hr, hc])
          simpa using hne
        rw [if_pos hr, if_pos hr, List.filter_cons, if_pos hm]
        rw [show activeAddrs (List.map (fun d => if (responsive d && d.randomAddr == m) = true
          then { d with withdrawn := true } else d) l) = activeAddrs (withdrawAt m l) from rfl, ih]
      · rw [if_neg hr, if_neg hr]
        exact ih

/-- WITHDRAW does not change random addresses. -/
theorem withdrawAt_map_random (m : Nat) (devs : List Device) :
    (withdrawAt m devs).map Device.randomAddr = devs.map Device.randomAddr := by
  simp only [withdrawAt, List.map_map]
  congr 1
  funext d
  by_cases h : (responsive d && d.randomAddr == m) = true <;> simp [Function.comp, h]

/-- WITHDRAW does not change short addresses. -/
theorem withdrawAt_map_short (m : Nat) (devs : List Device) :
    (withdrawAt m devs).map Device.shortAddr = devs.map Device.shortAddr := by
  simp only [withdrawAt, List.map_map]
  congr 1
  funext d
  by_cases h : (responsive d && d.randomAddr == m) = true <;> simp [Function.comp, h]

/-- Session start does not change random addresses. -/
theorem sessionStart_map_random (p : Nat) (devs : List Device) :
    (sessionStart p devs).map Device.randomAddr = devs.map Device.randomAddr := by
  simp only [sessionStart, List.map_map]
  congr 1

/-- Session start does not change short addresses. -/
theorem sessionStart_map_short (p : Nat) (devs : List Device) :
    (sessionStart p devs).map Device.shortAddr = devs.map Device.shortAddr := by
  simp only [sessionStart, List.map_map]
  congr 1

theorem programWords_qsa_wd :
    programWords [BusEvent.send (specialWord QUERY_SHORT_ADDR 0x00),
                  BusEvent.send (specialWord WITHDRAW 0x00)] = [] := rfl

/-- The QUERY_SHORT_ADDR reply comes from the (first) responsive device
whose random address equals the search address. -/
theorem queryShortAddr_spec (devs : List Device) (m : Nat)
    (hm : m ∈ activeAddrs devs) :
    ∃ dm, dm ∈ devs ∧ responsive dm = true ∧ dm.randomAddr = m ∧
      ((dm.shortAddr = none ∧ queryShortAddr m devs = 0xFF) ∨
       (∃ s, dm.shortAddr = some s ∧ queryShortAddr m devs = (s <<< 1) + 1)) := by
  have hex : ∃ d ∈ devs, (responsive d && d.randomAddr == m) = true := by
    simp only [activeAddrs, List.mem_map, List.mem_filter] at hm
    obtain ⟨d, ⟨hd, hresp⟩, hr⟩ := hm
    exact ⟨d, hd, by simp [hresp, hr]⟩
  obtain ⟨dm, hfind⟩ : ∃ dm,
      devs.find? (fun d => responsive d && d.randomAddr == m) = some dm := by
    rcases hf : devs.find? (fun d => responsive d && d.randomAddr == m) with _ | dm
    · exfalso
      obtain ⟨d, hd, hp⟩ := hex
      exact absurd hp (by simpa using List.find?_eq_none.mp hf d hd)
    · exact ⟨dm, rfl⟩
  have hp := List.find?_some hfind
  have hmem := List.mem_of_find?_eq_some hfind
  obtain ⟨hresp, haddr⟩ : responsive dm = true ∧ dm.randomAddr = m := by simpa using hp
  refine ⟨dm, hmem, hresp, haddr, ?_⟩
  rcases hsa : dm.shortAddr with _ | s
  · exact Or.inl ⟨rfl, by simp [queryShortAddr, hfind, hsa]⟩
  · exact Or.inr ⟨s, rfl, by simp [queryShortAddr, hfind, hsa]⟩

/-- Two responsive devices with the same random address are the same
device when the active addresses are distinct. -/
theorem responsive_inj (devs : List Device) (hnd : (activeAddrs devs).Nodup)
    (d1 d2 : Device) (h1 : d1 ∈ devs) (h2 : d2 ∈ devs)
    (hr1 : responsive d1 = true) (hr2 : responsive d2 = true)
    (heq : d1.randomAddr = d2.randomAddr) : d1 = d2 := by
  have hm1 : d1 ∈ devs.filter responsive := List.mem_filter.mpr ⟨h1, hr1⟩
  have hm2 : d2 ∈ devs.filter responsive := List.mem_filter.mpr ⟨h2, hr2⟩
  exact List.inj_on_of_nodup_map hnd hm1 hm2 heq

/-- One productive iteration of `ghLoop`: resolve the minimum `m`, read
the selected device's short address, update the running maximum and
withdraw the device. -/
theorem ghLoop_step (devs : List Device) (highest : Int) (tr : List BusEvent)
    (fuel : Nat) (m : Nat)
    (hm : m ∈ activeAddrs devs) (hmin : ∀ a ∈ activeAddrs devs, m ≤ a)
    (hbound : ∀ a ∈ activeAddrs devs, a < 2^24) :
    ghLoop (fuel + 1) ⟨devs, highest, tr⟩ =
      ghLoop fuel
        ⟨withdrawAt m devs,
         (if queryShortAddr m devs ≠ 0xFF then
            if (((queryShortAddr m devs >>> 1 : Nat)) : Int) > highest then
              (((queryShortAddr m devs >>> 1 : Nat)) : Int)
            else highest
          else highest),
         tr ++ (set_search_address 0xFFFFFF ++ [BusEvent.send (specialWord COMPARE 0x00)]) ++
           (searchIter devs 24 0xFFFFFF).2 ++
           (set_search_address m ++ [BusEvent.send (specialWord COMPARE 0x00)]) ++
           [BusEvent.send (specialWord QUERY_SHORT_ADDR 0x00),
            BusEvent.send (specialWord WITHDRAW 0x00)] ++ initRefresh⟩ := by
  have hcmpTop : compareYes devs 0xFFFFFF = true := compareYes_top devs m hm hbound
  have hcmpM : compareYes devs m = true := compareYes_self devs m hm
  have hs : (searchIter devs 24 0xFFFFFF).1 = m := searchIter_min devs m hm hmin (hbound m hm)
  simp only [ghLoop]
  rw [if_pos hcmpTop, hs, if_pos hcmpM]

/-- Correctness of the `get_highest_address` loop: it withdraws every
active device, sends no PROGRAM_SHORT_ADDR frame, never changes random or
short addresses, and accumulates into `highest` exactly the maximum short
address reported by the active devices. -/
theorem ghLoop_spec : ∀ (n : Nat) (devs : List Device) (highest : Int)
    (tr : List BusEvent) (fuel : Nat),
    (activeAddrs devs).length = n →
    (activeAddrs devs).Nodup →
    (∀ a ∈ activeAddrs devs, a < 2^24) →
    (∀ d ∈ devs, ∀ s, d.shortAddr = some s → s < 64) →
    n < fuel →
    ∃ st', ghLoop fuel ⟨devs, highest, tr⟩ = some st' ∧
      (∃ trNew, st'.trace = tr ++ trNew ∧ programWords trNew = []) ∧
      st'.devs.map Device.randomAddr = devs.map Device.randomAddr ∧
      st'.devs.map Device.shortAddr = devs.map Device.shortAddr ∧
      highest ≤ st'.highest ∧
      (∀ d ∈ devs, responsive d = true → ∀ s, d.shortAddr = some s → (s:Int) ≤ st'.highest) ∧
      (st'.highest = highest ∨
        ∃ d, d ∈ devs ∧ responsive d = true ∧ ∃ s, d.shortAddr = some s ∧ st'.highest = (s:Int)) := by
  intro n
  induction n with
  | zero =>
    intro devs highest tr fuel hlen hnd hb hshort hfuel
    have hempty : activeAddrs devs = [] := List.length_eq_zero.mp hlen
    have hnoresp : ∀ d ∈ devs, ¬ (responsive d = true) := by
      intro d hd hr
      have hfil : devs.filter responsive = [] := List.map_eq_nil_iff.mp hempty
      have hmem : d ∈ devs.filter responsive := List.mem_filter.mpr ⟨hd, hr⟩
      rw [hfil] at hmem
      exact absurd hmem (List.not_mem_nil d)
    cases fuel with
    | zero => omega
    | succ f =>
      have hcmp : compareYes devs 0xFFFFFF = false := compareYes_empty devs _ hempty
      refine ⟨⟨devs, highest,
        tr ++ (set_search_address 0xFFFFFF ++ [BusEvent.send (specialWord COMPARE 0x00)])⟩,
        ?_, ?_, rfl, rfl, le_refl _, ?_, Or.inl rfl⟩
      · simp only [ghLoop, hcmp]
        rw [if_neg Bool.false_ne_true]
      · refine ⟨set_search_address 0xFFFFFF ++ [BusEvent.send (specialWord COMPARE 0x00)], rfl, ?_⟩
        rw [programWords_append, programWords_setSearch, programWords_compare]
        rfl
      · intro d hd hr
        exact absurd hr (hnoresp d hd)
  | succ n ih =>
    intro devs highest tr fuel hlen hnd hb hshort hfuel
    have hne : activeAddrs devs ≠ [] := by
      intro h
      rw [h] at hlen
      simp at hlen
    obtain ⟨m, hm, hmin⟩ := exists_list_min _ hne
    obtain ⟨dm, hdmem, hdresp, hdaddr, hqcase⟩ := queryShortAddr_spec devs m hm
    cases fuel with
    | zero => omega
    | succ f =>
      rw [ghLoop_step devs highest tr f m hm hmin hb]
      have hA : activeAddrs (withdrawAt m devs) = (activeAddrs devs).filter (· != m) :=
        activeAddrs_after_withdraw m devs
      have h1 : (activeAddrs (withdrawAt m devs)).length = n := by
        rw [hA, ← List.Nodup.erase_eq_filter hnd m, List.length_erase_of_mem hm, hlen]
        omega
      have h2 : (activeAddrs (withdrawAt m devs)).Nodup := by
        rw [hA]
        exact hnd.filter _
      have h3 : ∀ a ∈ activeAddrs (withdrawAt m devs), a < 2^24 := by
        rw [hA]
        exact fun a ha => hb a (List.mem_of_mem_filter ha)
      have h4 : ∀ d ∈ withdrawAt m devs, ∀ s, d.shortAddr = some s → s < 64 := by
        intro d hd s hs
        obtain ⟨d0, hd0, heqd⟩ := List.mem_map.mp hd
        by_cases hg : (responsive d0 && d0.randomAddr == m) = true
        · rw [if_pos hg] at heqd
          refine hshort d0 hd0 s ?_
          rw [← hs, ← heqd]
        · rw [if_neg hg] at heqd
          exact hshort d0 hd0 s (heqd ▸ hs)
      obtain ⟨st', heq, htrace, hmapr, hmaps, hmono, hupper, hattain⟩ :=
        ih (withdrawAt m devs)
          (if queryShortAddr m devs ≠ 0xFF then
            if (((queryShortAddr m devs >>> 1 : Nat)) : Int) > highest then
              (((queryShortAddr m devs >>> 1 : Nat)) : Int)
            else highest
          else highest)
          (tr ++ (set_search_address 0xFFFFFF ++ [BusEvent.send (specialWord COMPARE 0x00)]) ++
           (searchIter devs 24 0xFFFFFF).2 ++
           (set_search_address m ++ [BusEvent.send (specialWord COMPARE 0x00)]) ++
           [BusEvent.send (specialWord QUERY_SHORT_ADDR 0x00),
            BusEvent.send (specialWord WITHDRAW 0x00)] ++ initRefresh)
          f h1 h2 h3 h4 (by omega)
      -- the accumulated value after this step
      have hmono0 : highest ≤
          (if queryShortAddr m devs ≠ 0xFF then
            if (((queryShortAddr m devs >>> 1 : Nat)) : Int) > highest then
              (((queryShortAddr m devs >>> 1 : Nat)) : Int)
            else highest
          else highest) := by
        split
        · split
          · omega
          · exact le_refl _
        · exact le_refl _
      refine ⟨st', heq, ?_, ?_, ?_, le_trans hmono0 hmono, ?_, ?_⟩
      · obtain ⟨trNew, htr, hprogs⟩ := htrace
        refine ⟨(set_search_address 0xFFFFFF ++ [BusEvent.send (specialWord COMPARE 0x00)]) ++
          ((searchIter devs 24 0xFFFFFF).2 ++
            ((set_search_address m ++ [BusEvent.send (specialWord COMPARE 0x00)]) ++
              ([BusEvent.send (specialWord QUERY_SHORT_ADDR 0x00),
                BusEvent.send (specialWord WITHDRAW 0x00)] ++ (initRefresh ++ trNew)))), ?_, ?_⟩
        · rw [htr]
          simp [List.append_assoc]
        · simp only [programWords_append, programWords_setSearch, programWords_compare,
            (searchIter_trace devs 24 0xFFFFFF).1, programWords_qsa_wd,
            programWords_initRefresh, hprogs, List.nil_append, List.append_nil]
      · rw [hmapr, withdrawAt_map_random]
      · rw [hmaps, withdrawAt_map_short]
      · -- upper bound on every responsive short address
        intro d hd hresp s hs
        by_cases haddr : d.randomAddr = m
        · have hd_eq : d = dm := responsive_inj devs hnd d dm hd hdmem hresp hdresp
            (by rw [haddr, hdaddr])
          subst hd_eq
          rcases hqcase with ⟨hnone, _⟩ | ⟨s0, hsa0, hq⟩
          · rw [hnone] at hs
            exact absurd hs (by simp)
          · rw [hsa0] at hs
            obtain rfl : s0 = s := Option.some.inj hs
            have hs64 : s0 < 64 := hshort d hd s0 hsa0
            have hne255 : queryShortAddr m devs ≠ 0xFF := by
              rw [hq, Nat.shiftLeft_eq]
              omega
            have hdec : queryShortAddr m devs >>> 1 = s0 := by
              rw [hq, Nat.shiftLeft_eq, Nat.shiftRight_eq_div_pow]
              omega
            refine le_trans ?_ hmono
            rw [if_pos hne255, hdec]
            split
            · exact le_refl _
            · omega
        · have hfd : (fun d => if (responsive d && d.randomAddr == m) = true then
              { d with withdrawn := true } else d) d = d := by
            simp [haddr]
          have hd' : d ∈ withdrawAt m devs := by
            rw [show withdrawAt m devs = devs.map (fun d =>
              if (responsive d && d.randomAddr == m) = true then
                { d with withdrawn := true } else d) from rfl, ← hfd]
            exact List.mem_map_of_mem _ hd
          exact hupper d hd' hresp s hs
      · -- where the final value comes from
        rcases hattain with heqv | ⟨d', hd', hresp', s', hs', heqv⟩
        · rw [heqv]
          rcases hqcase with ⟨hsa, hq⟩ | ⟨s, hsa, hq⟩
          · rw [if_neg (by rw [hq]; simp)]
            exact Or.inl rfl
          · have hs64 : s < 64 := hshort dm hdmem s hsa
            have hne255 : queryShortAddr m devs ≠ 0xFF := by
              rw [hq, Nat.shiftLeft_eq]
              omega
            have hdec : queryShortAddr m devs >>> 1 = s := by
              rw [hq, Nat.shiftLeft_eq, Nat.shiftRight_eq_div_pow]
              omega
            rw [if_pos hne255, hdec]
            by_cases hgt : ((s:Nat):Int) > highest
            · rw [if_pos hgt]
              exact Or.inr ⟨dm, hdmem, hdresp, s, hsa, rfl⟩
            · rw [if_neg hgt]
              exact Or.inl rfl
        · obtain ⟨d0, hd0, heqd⟩ := List.mem_map.mp hd'
          by_cases hg : (responsive d0 && d0.randomAddr == m) = true
          · exfalso
            rw [if_pos hg] at heqd
            rw [← heqd] at hresp'
            simp [responsive] at hresp'
          · rw [if_neg hg] at heqd
            subst heqd
            exact Or.inr ⟨d0, hd0, hresp', s', hs', heqv⟩

/-- Full specification of `get_highest_address`: it succeeds, changes no
random or short address, sends no PROGRAM_SHORT_ADDR frame, and returns
the maximum short address on the bus (-1 when no device has one). -/
theorem get_highest_address_spec (fuel : Nat) (devs : List Device)
    (hnd : (devs.map Device.randomAddr).Nodup)
    (hbound : ∀ d ∈ devs, d.randomAddr < 2^24)
    (hshort : ∀ d ∈ devs, ∀ s, d.shortAddr = some s → s < 64)
    (hfuel : devs.length < fuel) :
    ∃ h devs1 trPre, get_highest_address fuel devs = some (h, devs1, trPre) ∧
      devs1.map Device.randomAddr = devs.map Device.randomAddr ∧
      devs1.map Device.shortAddr = devs.map Device.shortAddr ∧
      programWords trPre = [] ∧
      (-1 : Int) ≤ h ∧
      (∀ d ∈ devs, ∀ s, d.shortAddr = some s → (s:Int) ≤ h) ∧
      (h = -1 ∨ ∃ d, d ∈ devs ∧ ∃ s, d.shortAddr = some s ∧ h = (s:Int)) := by
  have hmem0 : ∀ d ∈ devs,
      ({ d with inSession := ((0x00:Nat) == 0x00) || d.shortAddr.isNone, withdrawn := false }
        : Device) ∈ sessionStart 0x00 devs := by
    intro d hd
    exact List.mem_map_of_mem _ hd
  have h1 : (activeAddrs (sessionStart 0x00 devs)).length = devs.length := by
    rw [activeAddrs_session0, List.length_map]
  have h2 : (activeAddrs (sessionStart 0x00 devs)).Nodup := by
    rw [activeAddrs_session0]
    exact hnd
  have h3 : ∀ a ∈ activeAddrs (sessionStart 0x00 devs), a < 2^24 := by
    rw [activeAddrs_session0]
    intro a ha
    obtain ⟨d, hd, rfl⟩ := List.mem_map.mp ha
    exact hbound d hd
  have h4 : ∀ d ∈ sessionStart 0x00 devs, ∀ s, d.shortAddr = some s → s < 64 := by
    intro d hd s hs
    obtain ⟨d0, hd0, heqd⟩ := List.mem_map.mp hd
    exact hshort d0 hd0 s (by rw [← hs, ← heqd])
  obtain ⟨st', heq, ⟨trNew, htr, hprogs⟩, hmapr, hmaps, hmono, hupper, hattain⟩ :=
    ghLoop_spec devs.length (sessionStart 0x00 devs) (-1)
      [BusEvent.send (specialWord INITIALISE 0x00), BusEvent.send (specialWord INITIALISE 0x00),
       BusEvent.send (specialWord RANDOMISE 0x00), BusEvent.send (specialWord RANDOMISE 0x00),
       BusEvent.waitMs 100]
      fuel h1 h2 h3 h4 hfuel
  refine ⟨st'.highest, st'.devs, st'.trace ++ [BusEvent.send (specialWord TERMINATE 0x00)],
    ?_, ?_, ?_, ?_, hmono, ?_, ?_⟩
  · simp only [get_highest_address]
    rw [heq]
  · rw [hmapr, sessionStart_map_random]
  · rw [hmaps, sessionStart_map_short]
  · rw [programWords_append, htr, programWords_append, hprogs,
      show programWords [BusEvent.send (specialWord INITIALISE 0x00),
        BusEvent.send (specialWord INITIALISE 0x00),
        BusEvent.send (specialWord RANDOMISE 0x00),
        BusEvent.send (specialWord RANDOMISE 0x00),
        BusEvent.waitMs 100] = [] from rfl,
      show programWords [BusEvent.send (specialWord TERMINATE 0x00)] = [] from rfl]
    rfl
  · intro d hd s hs
    refine hupper _ (hmem0 d hd) rfl s hs
  · rcases hattain with hl | ⟨d0, hd0, _, s, hs, hval⟩
    · exact Or.inl hl
    · obtain ⟨d, hd, heqd⟩ := List.mem_map.mp hd0
      refine Or.inr ⟨d, hd, s, ?_, hval⟩
      rw [← hs, ← heqd]

/-- The pre-scan loop must withdraw every active device before it can see
COMPARE fail: with fuel no larger than the active-device count it runs
out. -/
theorem ghLoop_min_fuel : ∀ (fuel n : Nat) (devs : List Device) (highest : Int)
    (tr : List BusEvent),
    (activeAddrs devs).length = n →
    (activeAddrs devs).Nodup →
    (∀ a ∈ activeAddrs devs, a < 2^24) →
    fuel ≤ n →
    ghLoop fuel ⟨devs, highest, tr⟩ = none := by
  intro fuel
  induction fuel with
  | zero => intro n devs highest tr _ _ _ _; rfl
  | succ f ih =>
    intro n devs highest tr hlen hnd hb hle
    have hne : activeAddrs devs ≠ [] := by
      intro h
      rw [h] at hlen
      simp at hlen
      omega
    obtain ⟨m, hm, hmin⟩ := exists_list_min _ hne
    rw [ghLoop_step devs highest tr f m hm hmin hb]
    have hA : activeAddrs (withdrawAt m devs) = (activeAddrs devs).filter (· != m) :=
      activeAddrs_after_withdraw m devs
    refine ih (n - 1) _ _ _ ?_ ?_ ?_ ?_
    · rw [hA, ← List.Nodup.erase_eq_filter hnd m, List.length_erase_of_mem hm, hlen]
    · rw [hA]
      exact hnd.filter _
    · rw [hA]
      exact fun a ha => hb a (List.mem_of_mem_filter ha)
    · omega

/-- An incremental session (INITIALISE payload 0xFF) enrols exactly the
devices without a short address. -/
theorem activeAddrs_sessionFF (devs : List Device) :
    activeAddrs (sessionStart 0xFF devs) =
      (devs.filter (fun d => d.shortAddr.isNone)).map Device.randomAddr := by
  induction devs with
  | nil => rfl
  | cons d l ih =>
    rcases hsa : d.shortAddr with _ | s
    · simp only [sessionStart, List.map_cons, List.filter_cons] at ih ⊢
      rw [activeAddrs_cons, if_pos (by simp [responsive, hsa]), if_pos (by simp [hsa])]
      simp only [List.map_cons]
      rw [ih]
    · simp only [sessionStart, List.map_cons, List.filter_cons] at ih ⊢
      rw [activeAddrs_cons, if_neg (by simp [responsive, hsa]), if_neg (by simp [hsa])]
      exact ih

/-- Two device lists with the same random- and short-address sequences
have the same unaddressed-device address sequence. -/
theorem filter_map_transfer : ∀ (l₁ l₂ : List Device),
    l₁.map Device.randomAddr = l₂.map Device.randomAddr →
    l₁.map Device.shortAddr = l₂.map Device.shortAddr →
    (l₁.filter (fun d => d.shortAddr.isNone)).map Device.randomAddr =
      (l₂.filter (fun d => d.shortAddr.isNone)).map Device.randomAddr := by
  intro l₁
  induction l₁ with
  | nil =>
    intro l₂ h _
    cases l₂ with
    | nil => rfl
    | cons d t => simp at h
  | cons d t ih =>
    intro l₂ h1 h2
    cases l₂ with
    | nil => simp at h1
    | cons d2 t2 =>
      simp only [List.map_cons, List.cons.injEq] at h1 h2
      obtain ⟨hr, hrt⟩ := h1
      obtain ⟨hs, hst⟩ := h2
      simp only [List.filter_cons]
      by_cases hn : d.shortAddr.isNone = true
      · rw [if_pos hn, if_pos (by rw [← hs]; exact hn)]
        simp only [List.map_cons]
        rw [hr, ih t2 hrt hst]
      · rw [if_neg hn, if_neg (by rw [← hs]; exact hn)]
        exact ih t2 hrt hst

/-! ### The bookkeeping marks of the incremental pass -/

theorem mark_assigned_succ (k : Nat) : mark_assigned (k+1) = (mark_assigned k).set k true := by
  simp [mark_assigned, List.range_succ, List.foldl_append]

theorem mark_assigned_length (n : Nat) : (mark_assigned n).length = 63 := by
  induction n with
  | zero => rfl
  | succ k ih => rw [mark_assigned_succ, List.length_set, ih]

theorem mark_assigned_getD (n : Nat) (j : Nat) :
    (mark_assigned n).getD j false = (decide (j < n) && decide (j < 63)) := by
  induction n with
  | zero =>
    rw [show mark_assigned 0 = List.replicate 63 false from rfl, getD_replicate_false]
    simp
  | succ k ih =>
    rw [mark_assigned_succ]
    by_cases hj : j = k
    · subst hj
      by_cases hlt : j < 63
      · rw [List.getD_eq_getElem?_getD,
          List.getElem?_set_eq_of_lt true (by rw [mark_assigned_length]; omega)]
        simp [hlt]
      · rw [List.set_eq_of_length_le (by rw [mark_assigned_length]; omega), ih]
        simp [hlt]
    · rw [getD_set_ne _ _ _ _ (by omega), ih]
      congr 1
      simp only [decide_eq_decide]
      omega

/-- Unfolding of `assign_addresses` with `reset = false`, given the
pre-scan result. -/
theorem assign_addresses_false_eq (fuel : Nat) (devs : List Device) (h : Int)
    (devs1 : List Device) (trPre : List BusEvent)
    (hgha : get_highest_address fuel devs = some (h, devs1, trPre)) :
    assign_addresses false fuel devs =
      match assignLoop fuel (⟨sessionStart 0xFF devs1,
          (if h ≥ 0 then h.toNat + 1 else 0),
          (if h ≥ 0 then mark_assigned (h.toNat + 1) else List.replicate 63 false),
          trPre ++ [BusEvent.send (specialWord INITIALISE 0xFF),
                    BusEvent.send (specialWord INITIALISE 0xFF),
                    BusEvent.send (specialWord RANDOMISE 0x00),
                    BusEvent.send (specialWord RANDOMISE 0x00),
                    BusEvent.waitMs 100]⟩ : AAState) with
      | none => none
      | some st =>
        some { st with trace := st.trace ++ [BusEvent.send (specialWord TERMINATE 0x00)] } := by
  simp only [assign_addresses]
  rw [if_neg Bool.false_ne_true, if_neg Bool.false_ne_true, hgha]

/-- When the pre-scan runs out of fuel, `assign_addresses(false)` does
too. -/
theorem assign_addresses_false_none (fuel : Nat) (devs : List Device)
    (hgha : get_highest_address fuel devs = none) :
    assign_addresses false fuel devs = none := by
  simp only [assign_addresses]
  rw [if_neg Bool.false_ne_true, hgha]

/-- Claim C6 (amended): an incremental (`reset = false`) discovery run on
a bus where exactly the short addresses `0 … k-1` are assigned, provided
`k` plus the number of unaddressed devices does not exceed 63 (in
particular `k ≤ 62` once a new device is present — at `k = 63` of the
claim's stated range the pass never terminates, see the counterexample):
the pre-scan `get_highest_address` returns `k-1` and sends no
PROGRAM_SHORT_ADDR frame, the bookkeeping loop marks exactly the
addresses `0 … k-1` as used, the pass terminates, the already-addressed
devices keep their short addresses (they are never re-programmed), and
the first newly discovered device is programmed with short address
`k`. -/
theorem claim_C6 : ∀ (k : Nat) (devs : List Device) (fuel : Nat),
    1 ≤ k → k ≤ 63 →
    (devs.map Device.randomAddr).Nodup →
    (∀ d ∈ devs, d.randomAddr < 2^24) →
    (∀ d ∈ devs, ∀ s, d.shortAddr = some s → s < k) →
    (∃ d, d ∈ devs ∧ d.shortAddr = some (k - 1)) →
    (∃ d, d ∈ devs ∧ d.shortAddr = none) →
    k + (devs.filter (fun d => d.shortAddr.isNone)).length ≤ 63 →
    devs.length < fuel →
    (∀ h devs1 trPre, get_highest_address fuel devs = some (h, devs1, trPre) →
        h = ((k - 1 : Nat) : Int) ∧ programWords trPre = []) ∧
    (∀ j, j < 63 → (mark_assigned k).getD j false = decide (j < k)) ∧
    (assign_addresses false fuel devs).isSome = true ∧
    (∀ st, assign_addresses false fuel devs = some st →
        st.numAssigned = k + (devs.filter (fun d => d.shortAddr.isNone)).length ∧
        (programWords st.trace).head? =
          some (specialWord PROGRAM_SHORT_ADDR ((k <<< 1) + 1)) ∧
        (∀ (i : Nat) (d : Device), devs[i]? = some d → d.shortAddr.isSome = true →
          ∃ d', st.devs[i]? = some d' ∧ d'.shortAddr = d.shortAddr)) := by
  intro k devs fuel hk1 hk63 hnd hbound hlt hex_k1 hex_none hcap hfuel
  obtain ⟨dk, hdk, hdka⟩ := hex_k1
  obtain ⟨dn, hdn, hdna⟩ := hex_none
  have hshort64 : ∀ d ∈ devs, ∀ s, d.shortAddr = some s → s < 64 :=
    fun d hd s hs => lt_of_lt_of_le (hlt d hd s hs) (by omega)
  obtain ⟨h, devs1, trPre, hgha, hmapr, hmaps, hprogPre, hge, hupper, hattain⟩ :=
    get_highest_address_spec fuel devs hnd hbound hshort64 hfuel
  have hhk : h = ((k - 1 : Nat) : Int) := by
    have h1 : ((k - 1 : Nat) : Int) ≤ h := hupper dk hdk (k - 1) hdka
    have h2 : h ≤ ((k - 1 : Nat) : Int) := by
      rcases hattain with rfl | ⟨d, hd, s, hs, rfl⟩
      · omega
      · have hsk := hlt d hd s hs
        omega
    omega
  have hpos : h ≥ 0 := by
    rw [hhk]
    omega
  have htoNat : h.toNat + 1 = k := by
    rw [hhk]
    omega
  have hrunEq := assign_addresses_false_eq fuel devs h devs1 trPre hgha
  rw [if_pos hpos, if_pos hpos, htoNat] at hrunEq
  -- the incremental session
  have hAct : activeAddrs (sessionStart 0xFF devs1) =
      (devs.filter (fun d => d.shortAddr.isNone)).map Device.randomAddr := by
    rw [activeAddrs_sessionFF, filter_map_transfer devs1 devs hmapr hmaps]
  have hsub : List.Sublist ((devs.filter (fun d => d.shortAddr.isNone)).map Device.randomAddr)
      (devs.map Device.randomAddr) := (List.filter_sublist devs).map Device.randomAddr
  have hlen : (activeAddrs (sessionStart 0xFF devs1)).length =
      (devs.filter (fun d => d.shortAddr.isNone)).length := by
    rw [hAct, List.length_map]
  have hnd2 : (activeAddrs (sessionStart 0xFF devs1)).Nodup := by
    rw [hAct]
    exact hnd.sublist hsub
  have hb2 : ∀ a ∈ activeAddrs (sessionStart 0xFF devs1), a < 2^24 := by
    rw [hAct]
    intro a ha
    obtain ⟨d, hd, rfl⟩ := List.mem_map.mp ha
    exact hbound d (List.mem_of_mem_filter hd)
  have hinv2 : ∀ j, k ≤ j → (mark_assigned k).getD j false = false := by
    intro j hj
    rw [mark_assigned_getD]
    simp [show ¬ (j < k) by omega]
  obtain ⟨st', heq, hnum, _hact, ⟨trNew, htr, hprog, _hterm⟩, hunt⟩ :=
    assignLoop_spec (devs.filter (fun d => d.shortAddr.isNone)).length
      (sessionStart 0xFF devs1) k (mark_assigned k)
      (trPre ++ [BusEvent.send (specialWord INITIALISE 0xFF),
                 BusEvent.send (specialWord INITIALISE 0xFF),
                 BusEvent.send (specialWord RANDOMISE 0x00),
                 BusEvent.send (specialWord RANDOMISE 0x00),
                 BusEvent.waitMs 100])
      fuel hlen hnd2 hb2 hcap hinv2
      (lt_of_le_of_lt (List.length_filter_le _ _) hfuel)
  simp only [heq] at hrunEq
  have hn1 : 1 ≤ (devs.filter (fun d => d.shortAddr.isNone)).length := by
    have : dn ∈ devs.filter (fun d => d.shortAddr.isNone) :=
      List.mem_filter.mpr ⟨hdn, by simp [hdna]⟩
    exact List.length_pos.mpr (List.ne_nil_of_mem this)
  refine ⟨?_, ?_, ?_, ?_⟩
  · intro h' devs1' trPre' hq
    rw [hgha] at hq
    simp only [Option.some.injEq, Prod.mk.injEq] at hq
    obtain ⟨he1, _, he3⟩ := hq
    exact ⟨he1 ▸ hhk, he3 ▸ hprogPre⟩
  · intro j hj
    rw [mark_assigned_getD]
    simp [hj]
  · rw [hrunEq]
    rfl
  · intro st hst
    rw [hrunEq] at hst
    obtain rfl := Option.some.inj hst
    refine ⟨by simpa using hnum, ?_, ?_⟩
    · have hPW : programWords (st'.trace ++ [BusEvent.send (specialWord TERMINATE 0x00)]) =
          (List.range' k (devs.filter (fun d => d.shortAddr.isNone)).length).map
            (fun j => specialWord PROGRAM_SHORT_ADDR ((j <<< 1) + 1)) := by
        rw [programWords_append, htr, programWords_append, programWords_append,
          hprogPre, hprog,
          show programWords [BusEvent.send (specialWord INITIALISE 0xFF),
            BusEvent.send (specialWord INITIALISE 0xFF),
            BusEvent.send (specialWord RANDOMISE 0x00),
            BusEvent.send (specialWord RANDOMISE 0x00),
            BusEvent.waitMs 100] = [] from rfl,
          show programWords [BusEvent.send (specialWord TERMINATE 0x00)] = [] from rfl]
        simp
      rcases hcase : (devs.filter (fun d => d.shortAddr.isNone)).length with _ | m
      · omega
      · simp only at hPW ⊢
        rw [hPW, hcase, List.range'_succ, List.map_cons]
        rfl
    · intro i d hdi hsome
      have hidx : devs1[i]?.map Device.shortAddr = some d.shortAddr := by
        have hgg := congrArg (fun l => l[i]?) hmaps
        simp only [List.getElem?_map] at hgg
        rw [hgg, hdi, Option.map_some']
      obtain ⟨d1, hd1i, hd1s⟩ := Option.map_eq_some'.mp hidx
      have hd2i : (sessionStart 0xFF devs1)[i]? =
          some { d1 with inSession := ((0xFF:Nat) == 0x00) || d1.shortAddr.isNone, withdrawn := false } := by
        simp only [sessionStart, List.getElem?_map, hd1i, Option.map_some']
      have hs1 : d1.shortAddr.isSome = true := by
        rw [hd1s]
        exact hsome
      have hresp2 : responsive { d1 with inSession := ((0xFF:Nat) == 0x00) || d1.shortAddr.isNone, withdrawn := false } = false := by
        obtain ⟨s, hs⟩ := Option.isSome_iff_exists.mp hs1
        simp [responsive, hs]
      have hfin := hunt i _ hd2i hresp2
      exact ⟨_, hfin, by simpa using hd1s⟩

/-- Witness for C6: one device already holding short address 0, one new
device; `k = 1`. -/
theorem claim_C6_witness : (assign_addresses false 3 wdevsIncr).isSome = true :=
  (claim_C6 1 wdevsIncr 3 (by decide) (by decide) (by decide) (by decide) (by decide)
    (by decide) (by decide) (by decide) (by decide)).2.2.1

/-- At the boundary `k = 63`, with short addresses `0 … 62` assigned and
one new device on the bus, `numAssignedShortAddresses` starts at 63, the
`new_addr < 63` guard skips programming and withdrawal, COMPARE at
0xFFFFFF keeps answering YES, and `while(true)` never exits: for every
amount of fuel the incremental pass returns `none`. -/
theorem assign_addresses_k63_none : ∀ fuel : Nat,
    assign_addresses false fuel wdevs63full = none := by
  intro fuel
  by_cases hf : 64 < fuel
  · -- the pre-scan completes with highest = 62, then the outer loop spins
    have hnd : (wdevs63full.map Device.randomAddr).Nodup := by decide
    have hbound : ∀ d ∈ wdevs63full, d.randomAddr < 2^24 := by decide
    have hs63 : ∀ d ∈ wdevs63full, d.shortAddr.getD 0 < 63 := by decide
    have hshort : ∀ d ∈ wdevs63full, ∀ s, d.shortAddr = some s → s < 63 := by
      intro d hd s hs
      have h0 := hs63 d hd
      rw [hs] at h0
      simpa using h0
    obtain ⟨h, devs1, trPre, hgha, hmapr, hmaps, _hprogPre, _hge, hupper, hattain⟩ :=
      get_highest_address_spec fuel wdevs63full hnd hbound
        (fun d hd s hs => by have := hshort d hd s hs; omega)
        (by rw [show wdevs63full.length = 64 from rfl]; exact hf)
    have hmem62 : (⟨62, some 62, false, false⟩ : Device) ∈ wdevs63full := by decide
    have hh : h = ((62:Nat) : Int) := by
      have h1 : ((62:Nat) : Int) ≤ h := hupper ⟨62, some 62, false, false⟩ hmem62 62 rfl
      have h2 : h ≤ ((62:Nat) : Int) := by
        rcases hattain with rfl | ⟨d, hd, s, hs, rfl⟩
        · omega
        · have := hshort d hd s hs
          omega
      omega
    have hpos : h ≥ 0 := by rw [hh]; omega
    have htoNat : h.toNat + 1 = 63 := by rw [hh]; omega
    have hrunEq := assign_addresses_false_eq fuel wdevs63full h devs1 trPre hgha
    rw [if_pos hpos, if_pos hpos, htoNat] at hrunEq
    have hAct : activeAddrs (sessionStart 0xFF devs1) =
        (wdevs63full.filter (fun d => d.shortAddr.isNone)).map Device.randomAddr := by
      rw [activeAddrs_sessionFF, filter_map_transfer devs1 wdevs63full hmapr hmaps]
    have hconc : (wdevs63full.filter (fun d => d.shortAddr.isNone)).map Device.randomAddr
        = [63] := by decide
    have hm63 : 63 ∈ activeAddrs (sessionStart 0xFF devs1) := by
      rw [hAct, hconc]
      exact List.mem_singleton.mpr rfl
    have hb2 : ∀ a ∈ activeAddrs (sessionStart 0xFF devs1), a < 2^24 := by
      rw [hAct, hconc]
      decide
    have hstuck := assignLoop_stuck (sessionStart 0xFF devs1) 63 (mark_assigned 63)
      63 hm63 hb2 (by omega) fuel
      (trPre ++ [BusEvent.send (specialWord INITIALISE 0xFF),
                 BusEvent.send (specialWord INITIALISE 0xFF),
                 BusEvent.send (specialWord RANDOMISE 0x00),
                 BusEvent.send (specialWord RANDOMISE 0x00),
                 BusEvent.waitMs 100])
    rw [hstuck] at hrunEq
    exact hrunEq
  · -- not even the pre-scan completes: it must withdraw all 64 devices
    refine assign_addresses_false_none fuel wdevs63full ?_
    have hnone : ghLoop fuel ⟨sessionStart 0x00 wdevs63full, -1,
        [BusEvent.send (specialWord INITIALISE 0x00), BusEvent.send (specialWord INITIALISE 0x00),
         BusEvent.send (specialWord RANDOMISE 0x00), BusEvent.send (specialWord RANDOMISE 0x00),
         BusEvent.waitMs 100]⟩ = none := by
      refine ghLoop_min_fuel fuel 64 _ _ _ ?_ ?_ ?_ (by omega)
      · rw [activeAddrs_session0]
        rfl
      · rw [activeAddrs_session0]
        decide
      · rw [activeAddrs_session0]
        decide
    simp only [get_highest_address]
    rw [hnone]

/-- Counterexample to claim C6 as stated: at the boundary `k = 63` of its
range `[1, 63]` — sixty-three devices holding short addresses `0 … 62`
plus one new device — the incremental pass produces no result even with
ample fuel (by the preceding theorem it never terminates for any fuel),
so the first newly discovered device is never assigned short address
63. -/
theorem claim_C6_counterexample : assign_addresses false 1000 wdevs63full = none :=
  assign_addresses_k63_none 1000

/-! ### The input-device pass and `init` (claim C10) -/

/-- The input-device binary search resolves the same search address as
the lighting one (only the emitted frames differ). -/
theorem searchIterInput_fst (devs : List Device) :
    ∀ (i s : Nat), (searchIterInput devs i s).1 = (searchIter devs i s).1 := by
  intro i
  induction i with
  | zero => intro s; rfl
  | succ k ih =>
    intro s
    simp only [searchIterInput, searchIter]
    exact ih _

/-- One productive iteration of `assignInputLoop`. -/
theorem assignInputLoop_step (devs : List Device) (counter : Nat) (assigned : List Bool)
    (tr : List BusEvent) (fuel : Nat) (m : Nat)
    (hm : m ∈ activeAddrs devs) (hmin : ∀ a ∈ activeAddrs devs, m ≤ a)
    (hbound : ∀ a ∈ activeAddrs devs, a < 2^24)
    (hc63 : counter < 63)
    (hinv : assigned.getD counter false = false) :
    assignInputLoop (fuel + 1) ⟨devs, counter, assigned, tr⟩ =
      assignInputLoop fuel
        ⟨withdrawAt m (programAt m ((counter <<< 1) + 1) devs),
         counter + 1, assigned.set counter true,
         tr ++ (set_search_address_input 0xFFFFFF ++ [BusEvent.send24 (specialInputWord 0x03 0x00)]) ++
           (searchIterInput devs 24 0xFFFFFF).2 ++
           (set_search_address_input m ++ [BusEvent.send24 (specialInputWord 0x03 0x00)]) ++
           [BusEvent.send24 (specialInputWord 0x08 ((counter <<< 1) + 1)),
            BusEvent.send24 (specialInputWord 0x04 0x00)] ++ initRefreshInput⟩ := by
  have hcmpTop : compareYes devs 0xFFFFFF = true := compareYes_top devs m hm hbound
  have hcmpM : compareYes devs m = true := compareYes_self devs m hm
  have hs : (searchIterInput devs 24 0xFFFFFF).1 = m := by
    rw [searchIterInput_fst]
    exact searchIter_min devs m hm hmin (hbound m hm)
  simp only [assignInputLoop]
  rw [if_pos hcmpTop, if_pos hc63, hs, if_pos hcmpM, if_pos hc63, hinv,
    if_neg Bool.false_ne_true]

/-- The input-device outer loop terminates and returns
`counter + (number of active devices)`. -/
theorem assignInputLoop_count : ∀ (n : Nat) (devs : List Device) (counter : Nat)
    (assigned : List Bool) (tr : List BusEvent) (fuel : Nat),
    (activeAddrs devs).length = n →
    (activeAddrs devs).Nodup →
    (∀ a ∈ activeAddrs devs, a < 2^24) →
    counter + n ≤ 63 →
    (∀ j, counter ≤ j → assigned.getD j false = false) →
    n < fuel →
    ∃ st', assignInputLoop fuel ⟨devs, counter, assigned, tr⟩ = some st' ∧
      st'.numAssigned = counter + n := by
  intro n
  induction n with
  | zero =>
    intro devs counter assigned tr fuel hlen hnd hb hcap hinv hfuel
    have hempty : activeAddrs devs = [] := List.length_eq_zero.mp hlen
    cases fuel with
    | zero => omega
    | succ f =>
      have hcmp : compareYes devs 0xFFFFFF = false := compareYes_empty devs _ hempty
      refine ⟨⟨devs, counter, assigned,
        tr ++ (set_search_address_input 0xFFFFFF ++ [BusEvent.send24 (specialInputWord 0x03 0x00)])⟩,
        ?_, by simp⟩
      simp only [assignInputLoop, hcmp]
      rw [if_neg Bool.false_ne_true]
  | succ n ih =>
    intro devs counter assigned tr fuel hlen hnd hb hcap hinv hfuel
    have hne : activeAddrs devs ≠ [] := by
      intro h
      rw [h] at hlen
      simp at hlen
    obtain ⟨m, hm, hmin⟩ := exists_list_min _ hne
    cases fuel with
    | zero => omega
    | succ f =>
      rw [assignInputLoop_step devs counter assigned tr f m hm hmin hb (by omega)
        (hinv counter (le_refl _))]
      have hA : activeAddrs (withdrawAt m (programAt m ((counter <<< 1) + 1) devs)) =
          (activeAddrs devs).filter (· != m) := activeAddrs_after_wp _ _ _
      obtain ⟨st', heq, hnum⟩ :=
        ih (withdrawAt m (programAt m ((counter <<< 1) + 1) devs)) (counter + 1)
          (assigned.set counter true)
          (tr ++ (set_search_address_input 0xFFFFFF ++ [BusEvent.send24 (specialInputWord 0x03 0x00)]) ++
            (searchIterInput devs 24 0xFFFFFF).2 ++
            (set_search_address_input m ++ [BusEvent.send24 (specialInputWord 0x03 0x00)]) ++
            [BusEvent.send24 (specialInputWord 0x08 ((counter <<< 1) + 1)),
             BusEvent.send24 (specialInputWord 0x04 0x00)] ++ initRefreshInput)
          f
          (by rw [hA, ← List.Nodup.erase_eq_filter hnd m, List.length_erase_of_mem hm, hlen]; omega)
          (by rw [hA]; exact hnd.filter _)
          (by rw [hA]; exact fun a ha => hb a (List.mem_of_mem_filter ha))
          (by omega)
          (by
            intro j hj
            rw [getD_set_ne _ _ _ _ (by omega)]
            exact hinv j (by omega))
          (by omega)
      exact ⟨st', heq, by omega⟩

/-- Unfolding of `assign_addresses_input`: the INITIALISE payload is the
literal 0xFF, the counter starts at `num_found` (as a `uint8_t`). -/
theorem assign_addresses_input_eq (reset : Bool) (num_found fuel : Nat) (devs : List Device) :
    assign_addresses_input reset num_found fuel devs =
      match assignInputLoop fuel (⟨sessionStart 0xFF devs, num_found % 256,
          List.replicate 63 false,
          [BusEvent.send24 (specialInputWord 0x01 0xFF),
           BusEvent.send24 (specialInputWord 0x01 0xFF),
           BusEvent.send24 (specialInputWord 0x02 0x00),
           BusEvent.send24 (specialInputWord 0x02 0x00),
           BusEvent.waitMs 100]⟩ : AAState) with
      | none => none
      | some st =>
        some { st with trace := st.trace ++ [BusEvent.send24 (specialInputWord 0x00 0x00)] } := rfl

/-- Claim C10: `init()` returns `assign_addresses()` plus the return
value of `assign_addresses_input(true, num_logical_units)`;
`assign_addresses_input` starts its counter at `num_found` and returns
that counter, so on a bus with `L` lights and `I` input devices the
driver reports `2·L + I` logical units, not `L + I`. -/
theorem claim_C10 : ∀ (lights inputs : List Device) (fuel : Nat),
    (lights.map Device.randomAddr).Nodup →
    (∀ d ∈ lights, d.randomAddr < 2^24) →
    (∀ d ∈ lights, d.shortAddr = none) →
    (inputs.map Device.randomAddr).Nodup →
    (∀ d ∈ inputs, d.randomAddr < 2^24) →
    (∀ d ∈ inputs, d.shortAddr = none) →
    lights.length + inputs.length ≤ 63 →
    lights.length + inputs.length < fuel →
    (driverInit fuel lights inputs).isSome = true ∧
    ∀ r stL stI, driverInit fuel lights inputs = some (r, stL, stI) →
      stL.numAssigned = lights.length ∧
      stI.numAssigned = lights.length + inputs.length ∧
      r = 2 * lights.length + inputs.length := by
  intro lights inputs fuel hndL hbL hsL hndI hbI hsI hcap hfuel
  -- the lighting pass (incremental, but nothing is pre-addressed)
  obtain ⟨h, devs1, trPre, hgha, hmapr, hmaps, _hprogPre, _hge, _hupper, hattain⟩ :=
    get_highest_address_spec fuel lights hndL hbL
      (fun d hd s hs => absurd (hs ▸ hsL d hd) (by simp))
      (by omega)
  have hh1 : h = -1 := by
    rcases hattain with h1 | ⟨d, hd, s, hs, _⟩
    · exact h1
    · rw [hsL d hd] at hs
      exact absurd hs (by simp)
  subst hh1
  have hrunEqL := assign_addresses_false_eq fuel lights (-1) devs1 trPre hgha
  have hneg : ¬ ((-1:Int) ≥ 0) := by norm_num
  rw [if_neg hneg, if_neg hneg] at hrunEqL
  have hfilterL : lights.filter (fun d => d.shortAddr.isNone) = lights :=
    List.filter_eq_self.mpr (fun d hd => by simp [hsL d hd])
  have hActL : activeAddrs (sessionStart 0xFF devs1) = lights.map Device.randomAddr := by
    rw [activeAddrs_sessionFF, filter_map_transfer devs1 lights hmapr hmaps, hfilterL]
  obtain ⟨stL', heqL, hnumL, _hactL, _htrL, _huntL⟩ :=
    assignLoop_spec lights.length (sessionStart 0xFF devs1) 0 (List.replicate 63 false)
      (trPre ++ [BusEvent.send (specialWord INITIALISE 0xFF),
                 BusEvent.send (specialWord INITIALISE 0xFF),
                 BusEvent.send (specialWord RANDOMISE 0x00),
                 BusEvent.send (specialWord RANDOMISE 0x00),
                 BusEvent.waitMs 100])
      fuel
      (by rw [hActL, List.length_map])
      (by rw [hActL]; exact hndL)
      (by
        rw [hActL]
        intro a ha
        obtain ⟨d, hd, rfl⟩ := List.mem_map.mp ha
        exact hbL d hd)
      (by omega)
      (fun j _ => getD_replicate_false j)
      (by omega)
  simp only [heqL] at hrunEqL
  have hnumL' : stL'.numAssigned = lights.length := by omega
  -- the input pass
  have hfilterI : inputs.filter (fun d => d.shortAddr.isNone) = inputs :=
    List.filter_eq_self.mpr (fun d hd => by simp [hsI d hd])
  have hActI : activeAddrs (sessionStart 0xFF inputs) = inputs.map Device.randomAddr := by
    rw [activeAddrs_sessionFF, hfilterI]
  obtain ⟨stI', heqI, hnumI⟩ :=
    assignInputLoop_count inputs.length (sessionStart 0xFF inputs) lights.length
      (List.replicate 63 false)
      [BusEvent.send24 (specialInputWord 0x01 0xFF),
       BusEvent.send24 (specialInputWord 0x01 0xFF),
       BusEvent.send24 (specialInputWord 0x02 0x00),
       BusEvent.send24 (specialInputWord 0x02 0x00),
       BusEvent.waitMs 100]
      fuel
      (by rw [hActI, List.length_map])
      (by rw [hActI]; exact hndI)
      (by
        rw [hActI]
        intro a ha
        obtain ⟨d, hd, rfl⟩ := List.mem_map.mp ha
        exact hbI d hd)
      hcap
      (fun j _ => getD_replicate_false j)
      (by omega)
  have hrunEqI := assign_addresses_input_eq true
    ({ stL' with trace := stL'.trace ++ [BusEvent.send (specialWord TERMINATE 0x00)] } : AAState).numAssigned
    fuel inputs
  have hmod : ({ stL' with trace := stL'.trace ++ [BusEvent.send (specialWord TERMINATE 0x00)] } : AAState).numAssigned % 256 = lights.length := by
    simp only
    rw [hnumL']
    exact Nat.mod_eq_of_lt (by omega)
  rw [hmod] at hrunEqI
  simp only [heqI] at hrunEqI
  have hDI : driverInit fuel lights inputs =
      some (({ stL' with trace := stL'.trace ++ [BusEvent.send (specialWord TERMINATE 0x00)] } : AAState).numAssigned +
            ({ stI' with trace := stI'.trace ++ [BusEvent.send24 (specialInputWord 0x00 0x00)] } : AAState).numAssigned,
            { stL' with trace := stL'.trace ++ [BusEvent.send (specialWord TERMINATE 0x00)] },
            { stI' with trace := stI'.trace ++ [BusEvent.send24 (specialInputWord 0x00 0x00)] }) := by
    simp only [driverInit, hrunEqL, hrunEqI]
  refine ⟨by rw [hDI]; rfl, ?_⟩
  intro r stL stI hinit
  rw [hDI] at hinit
  simp only [Option.some.injEq, Prod.mk.injEq] at hinit
  obtain ⟨hr, hL, hI⟩ := hinit
  refine ⟨?_, ?_, ?_⟩
  · rw [← hL]
    simpa using hnumL'
  · rw [← hI]
    simpa using hnumI
  · rw [← hr]
    omega

/-- Witness for C10: two lights and two input devices give
`num_logical_units = 6`, not 4. -/
theorem claim_C10_witness : (driverInit 5 wdevs3.tail winputs2).isSome = true :=
  (claim_C10 wdevs3.tail winputs2 5 (by decide) (by decide) (by decide) (by decide)
    (by decide) (by decide) (by decide) (by decide)).1

end DALI
